import Mathlib

/-! # Contact enrichment pipeline of `backend/server.js`

A shallow embedding of the helper functions of `server.js`
(`extractContactInfo`, `cleanPhoneNumber`, `calculateConfidence`,
`checkDNCStatus`, `searchSerpApiEnhanced`, `tryScrapeSafe`, `processRealtor`)
together with theorems about them.

JavaScript strings are modelled as lists of characters.  Every character class
of the two regular expressions and of `/\D/` is a set of BMP code points, so a
character outside the BMP (two surrogate code units in JavaScript) belongs to
none of them in either reading, and matching over code points agrees with
matching over code units.
-/

namespace Scraper

/-- A JavaScript string. -/
abbrev Str := List Char

/-! ## Regular expressions

The two patterns of `server.js` are built from single-character classes, greedy
quantifiers on such classes, one greedy optional group and the word-boundary
assertion.  A pattern is embedded in continuation-passing style: a matcher takes
the character just before the current position (`none` at the start of the
text), the text from the current position on, and returns the text consumed
from here to the end of the whole match, following the backtracking order of
the ECMAScript matcher (greedy: the longer alternative is tried first). -/

/-- A matcher for the remainder of a pattern. -/
abbrev Matcher := Option Char → Str → Option Str

/-- The end of the pattern: succeeds consuming nothing. -/
def accept : Matcher := fun _ _ => some []

/-- One character of the class `p`, then `k`. -/
def one (p : Char → Bool) (k : Matcher) : Matcher := fun _ s =>
  match s with
  | [] => none
  | c :: cs => if p c then (k (some c) cs).map (fun w => c :: w) else none

/-- Greedy `p?`, then `k`: first with the character, then without it. -/
def opt (p : Char → Bool) (k : Matcher) : Matcher := fun prev s =>
  match one p k prev s with
  | some w => some w
  | none => k prev s

/-- Greedy `p*`, then `k`: the longest run first, giving back one character at a
time. -/
def star (p : Char → Bool) (k : Matcher) : Matcher
  | prev, [] => k prev []
  | prev, c :: cs =>
    if p c then
      match star p k (some c) cs with
      | some w => some (c :: w)
      | none => k prev (c :: cs)
    else k prev (c :: cs)

/-- Greedy optional group `(g)?`, then `k`: first with the group, then without. -/
def optGroup (g : Matcher → Matcher) (k : Matcher) : Matcher := fun prev s =>
  match g k prev s with
  | some w => some w
  | none => k prev s

/-- The class `\w` (no `u`/`i` flags): `[A-Za-z0-9_]`. -/
def isWordChar (c : Char) : Bool :=
  (65 ≤ c.toNat && c.toNat ≤ 90) || (97 ≤ c.toNat && c.toNat ≤ 122) ||
  (48 ≤ c.toNat && c.toNat ≤ 57) || c.toNat == 95

/-- Whether the position is next to a word character on the given side. -/
def wordSide : Option Char → Bool
  | none => false
  | some c => isWordChar c

/-- The assertion `\b`, then `k`. -/
def wordBoundary (k : Matcher) : Matcher := fun prev s =>
  if wordSide prev != wordSide s.head? then k prev s else none

/-- All matches of a global regular expression, as `String.prototype.match`
with the `g` flag collects them: the pattern is tried at every index from
`lastIndex` on, a match moves `lastIndex` to its end (one further when the
match is empty).  `skip` counts the characters still inside the previous match. -/
def scan (m : Matcher) : Nat → Option Char → Str → List Str
  | _, prev, [] =>
    match m prev [] with
    | some w => [w]
    | none => []
  | skip + 1, _, c :: cs => scan m skip (some c) cs
  | 0, prev, c :: cs =>
    match m prev (c :: cs) with
    | some w => w :: scan m (w.length - 1) (some c) cs
    | none => scan m 0 (some c) cs

/-- The result of `text.match(re) || []` for a global `re`. -/
def matchAll (m : Matcher) (text : Str) : List Str := scan m 0 none text

/-- ASCII letter `[A-Za-z]`. -/
def isAlpha (c : Char) : Bool :=
  (65 ≤ c.toNat && c.toNat ≤ 90) || (97 ≤ c.toNat && c.toNat ≤ 122)

/-- The class `\d`: `[0-9]`. -/
def isDigit (c : Char) : Bool := 48 ≤ c.toNat && c.toNat ≤ 57

/-- The class `\s`: ECMAScript white space and line terminators. -/
def isSpace (c : Char) : Bool :=
  (9 ≤ c.toNat && c.toNat ≤ 13) || c.toNat == 32 || c.toNat == 160 ||
  c.toNat == 5760 || (8192 ≤ c.toNat && c.toNat ≤ 8202) || c.toNat == 8232 ||
  c.toNat == 8233 || c.toNat == 8239 || c.toNat == 8287 || c.toNat == 12288 ||
  c.toNat == 65279

/-- The class `[A-Za-z0-9._%+-]`. -/
def isLocalChar (c : Char) : Bool :=
  isAlpha c || isDigit c || c == '.' || c == '_' || c == '%' || c == '+' || c == '-'

/-- The class `[A-Za-z0-9.-]`. -/
def isDomainChar (c : Char) : Bool :=
  isAlpha c || isDigit c || c == '.' || c == '-'

/-- The class `[A-Z|a-z]`: the bar is a member of the class. -/
def isTldChar (c : Char) : Bool := isAlpha c || c == '|'

/-- The class `[-.\s]`. -/
def isSepChar (c : Char) : Bool := c == '-' || c == '.' || isSpace c

/-- The pattern `EMAIL_PATTERN = /\b[A-Za-z0-9._%+-]+@[A-Za-z0-9.-]+\.[A-Z|a-z]{2,}\b/g`. -/
def EMAIL_PATTERN : Matcher :=
  wordBoundary <| one isLocalChar <| star isLocalChar <|
  one (· == '@') <|
  one isDomainChar <| star isDomainChar <|
  one (· == '.') <|
  one isTldChar <| one isTldChar <| star isTldChar <|
  wordBoundary accept

/-- The group `\+?1[-.\s]?` of `PHONE_PATTERN`. -/
def countryCode (k : Matcher) : Matcher :=
  opt (· == '+') <| one (· == '1') <| opt isSepChar k

/-- The pattern `PHONE_PATTERN = /(\+?1[-.\s]?)?\(?\d{3}\)?[-.\s]?\d{3}[-.\s]?\d{4}/g`. -/
def PHONE_PATTERN : Matcher :=
  optGroup countryCode <|
  opt (· == '(') <|
  one isDigit <| one isDigit <| one isDigit <|
  opt (· == ')') <|
  opt isSepChar <|
  one isDigit <| one isDigit <| one isDigit <|
  opt isSepChar <|
  one isDigit <| one isDigit <| one isDigit <| one isDigit <|
  accept

/-- Every match the matcher `k` can return satisfies `P`. -/
def Yields (k : Matcher) (P : Str → Prop) : Prop :=
  ∀ prev s w, k prev s = some w → P w

/-! ## Helper functions -/

/-- Insertion into a `Set`, which keeps its elements in insertion order: an
element already present is skipped. -/
def insertNew (seen : List Str) (x : Str) : List Str :=
  if x ∈ seen then seen else seen ++ [x]

/-- The array `[...new Set(xs)]`: the elements of `xs` inserted one after the
other into an empty set. -/
def uniqueInOrder (xs : List Str) : List Str :=
  xs.foldl insertNew []

/-- The position of the first occurrence of `x` in `xs` (the length of `xs`
when there is none); used to state the order of a de-duplicated array. -/
def firstIndex (x : Str) : List Str → Nat
  | [] => 0
  | y :: ys => if y = x then 0 else firstIndex x ys + 1

/-- The method `String.prototype.toLowerCase` on the ASCII letters.  It is only applied to
matches of `EMAIL_PATTERN`, which consist of ASCII characters. -/
def toLowerCase (s : Str) : Str := s.map Char.toLower

/-- The method `String.prototype.includes`: `sub` occurs in `s` as a contiguous substring. -/
def includes : Str → Str → Bool
  | [], sub => sub.isEmpty
  | c :: cs, sub => sub.isPrefixOf (c :: cs) || includes cs sub

/-- The markers tested by the filter of `extractContactInfo`, in source order. -/
def blockedMarkers : List Str :=
  ["noreply".toList, "support".toList, "info@".toList, "admin".toList,
   "example".toList, "test".toList, "privacy".toList, "abuse".toList]

/-- The predicate of `emails.filter(...)` in `extractContactInfo`. -/
def emailAllowed (email : Str) : Bool :=
  let lower := toLowerCase email
  !includes lower "noreply".toList &&
  !includes lower "support".toList &&
  !includes lower "info@".toList &&
  !includes lower "admin".toList &&
  !includes lower "example".toList &&
  !includes lower "test".toList &&
  !includes lower "privacy".toList &&
  !includes lower "abuse".toList

/-- The object returned by `extractContactInfo`. -/
structure ContactInfo where
  emails : List Str
  phones : List Str
deriving DecidableEq, Repr

/-- The function `extractContactInfo(text)`. -/
def extractContactInfo (text : Str) : ContactInfo :=
  let emails := uniqueInOrder (matchAll EMAIL_PATTERN text)
  let phones := uniqueInOrder (matchAll PHONE_PATTERN text)
  let filteredEmails := emails.filter emailAllowed
  { emails := filteredEmails.take 5, phones := phones.take 5 }

/-- JavaScript truthiness of a string: non-empty. -/
def truthy (s : Str) : Bool := !s.isEmpty

/-- A property that may be missing: `none` is `undefined`. -/
abbrev Field := Option Str

/-- The expression `x || d` for a string-or-undefined `x` and a string `d`. -/
def orDefault (x : Field) (d : Str) : Str :=
  match x with
  | some s => if truthy s then s else d
  | none => d

/-- The expression `a || b` on two strings. -/
def strOr (a b : Str) : Str := if truthy a then a else b

/-- The function `cleanPhoneNumber(phone)`: `phone.replace(/\D/g, '')`. -/
def cleanPhoneNumber (phone : Str) : Str :=
  if !truthy phone then [] else phone.filter isDigit

/-- The function `calculateConfidence(email, phone, source)` on strings. -/
def calculateConfidence (email phone source : Str) : Nat :=
  let score := 0
  let score := if truthy email then score + 50 else score
  let score := if truthy phone then score + 40 else score
  let score :=
    if includes source "linkedin".toList || includes source "realtor.com".toList ||
        includes source "zillow".toList then score + 10 else score
  min score 100

/-! ## The outside world

Network calls are answered by oracles that thread a state of type `σ`, so that
an answer may depend on everything that happened before.  Every call and every
pause is recorded in a log, oldest first. -/

/-- The value of a search result's `url` property, as far as the code observes
it.  `other` is a truthy value without an `includes` method (a number, `true`,
a plain object), on which `url.includes(...)` raises a `TypeError`. -/
inductive UrlVal
  | undefined
  | str (s : Str)
  | other
deriving DecidableEq, Repr

/-- JavaScript truthiness of a `url` value. -/
def UrlVal.truthy : UrlVal → Bool
  | .undefined => false
  | .str s => Scraper.truthy s
  | .other => true

/-- The expression `v || d` for a `url` value `v` and a string `d`. -/
def UrlVal.orDefault (v : UrlVal) (d : Str) : UrlVal :=
  if v.truthy then v else .str d

/-- What the log records. -/
inductive Event
  /-- The search request of `searchSerpApiEnhanced`. -/
  | search (query apiKey : Str)
  /-- A call of `tryScrapeSafe`. -/
  | scrape (url : UrlVal)
  /-- The page request of `tryScrapeSafe`. -/
  | fetch (url : Str)
  /-- The registry request of `checkDNCStatus`. -/
  | registry (phone token : Str)
  /-- The pause `setTimeout(resolve, ms)`. -/
  | sleep (ms : Nat)
deriving DecidableEq, Repr

/-- An entry of `organic_results`. -/
structure OrganicResult where
  link : UrlVal
  title : Field
  snippet : Field
deriving DecidableEq, Repr

/-- The object `knowledge_graph`.  `profiles` and `contact` hold the text
`JSON.stringify` gives for the property, `none` when the property is missing. -/
structure KnowledgeGraph where
  title : Field
  description : Field
  phone : Field
  email : Field
  profiles : Field
  contact : Field
  website : Field
deriving DecidableEq, Repr

/-- An entry of `local_results.places`. -/
structure Place where
  title : Field
  address : Field
  phone : Field
  website : Field
deriving DecidableEq, Repr

/-- The object `answer_box`. -/
structure AnswerBox where
  answer : Field
  title : Field
  snippet : Field
  link : Field
deriving DecidableEq, Repr

/-- The body of a search response; `places` is `none` when `local_results` or
its `places` is missing. -/
structure SerpData where
  organic_results : Option (List OrganicResult)
  knowledge_graph : Option KnowledgeGraph
  places : Option (List Place)
  answer_box : Option AnswerBox
deriving DecidableEq, Repr

/-- Outcome of the search request: a body, or a failure (transport, timeout,
status, parse) raised inside the `try`. -/
inductive SerpOutcome
  | response (data : SerpData)
  | failure
deriving DecidableEq, Repr

/-- The body of a registry response. -/
structure DncData where
  RESPONSECODE : Field
  RESPONSEMSG : Field
  national_dnc : Field
  state_dnc : Field
  iscell : Field
  litigator : Field
  id : Field
deriving DecidableEq, Repr

/-- Outcome of the registry request: a body, or an exception raised inside the
`try` with its `message`. -/
inductive RegistryOutcome
  | response (data : DncData)
  | failure (message : Str)
deriving DecidableEq, Repr

/-- The oracles answering the three kinds of request. -/
structure World (σ : Type) where
  /-- `axios.get('https://serpapi.com/search.json', {params: {q, api_key, ...}})`. -/
  serp : σ → Str → Str → SerpOutcome × σ
  /-- `axios.get(url, ...)` followed by the text of the document without its
  `script`, `style` and `noscript` nodes; `none` when any of this fails. -/
  page : σ → Str → Option Str × σ
  /-- `axios.get('.../DNCLookup.php', {params: {phone, token, ...}})`. -/
  registry : σ → Str → Str → RegistryOutcome × σ

/-- The state of a run: the state of the world and the log. -/
structure Sys (σ : Type) where
  env : σ
  log : List Event

/-- Appends an entry to the log. -/
def Sys.record {σ : Type} (s : Sys σ) (e : Event) : Sys σ :=
  { s with log := s.log ++ [e] }

/-- How an `await`ed call ends. -/
inductive Completion (α : Type)
  | normal (value : α)
  | thrown
deriving DecidableEq, Repr

/-! ## `checkDNCStatus` -/

/-- The object returned by `checkDNCStatus`; a property that the object does not
have is `none`. -/
structure DNCResult where
  isDNC : Bool
  nationalDNC : Option Bool := none
  stateDNC : Option Bool := none
  isCell : Option Bool := none
  isLitigator : Option Bool := none
  id : Option Str := none
  error : Option Str := none
deriving DecidableEq, Repr

/-- The constant `RPV_API_TOKEN` of `server.js`. -/
def RPV_API_TOKEN : Str := "2169AE51-9510-4D7F-ABA0-69A5F558B88B".toList

/-- The interpretation of a registry body in `checkDNCStatus`. -/
def interpretDnc (data : DncData) : DNCResult :=
  if data.RESPONSECODE = some "-1".toList then
    { isDNC := false, error := some (orDefault data.RESPONSEMSG "API returned error".toList) }
  else if data.RESPONSECODE = some "OK".toList then
    if data.national_dnc = some "Y".toList then
      { isDNC := true, nationalDNC := some true,
        stateDNC := some (data.state_dnc = some "Y".toList),
        isCell := some (data.iscell = some "Y".toList),
        isLitigator := some (data.litigator = some "Y".toList),
        id := some (orDefault data.id []) }
    else if data.national_dnc = some "N".toList then
      { isDNC := false, nationalDNC := some false,
        stateDNC := some (data.state_dnc = some "Y".toList),
        isCell := some (data.iscell = some "Y".toList),
        isLitigator := some (data.litigator = some "Y".toList),
        id := some (orDefault data.id []) }
    else { isDNC := false, error := some "Unexpected API response format".toList }
  else { isDNC := false, error := some "Unexpected API response format".toList }

/-- The function `checkDNCStatus(phone)`, with the configured token as a parameter. -/
def checkDNCStatus {σ : Type} (W : World σ) (token phone : Str) (s : Sys σ) :
    DNCResult × Sys σ :=
  if !truthy phone || !truthy token then
    ({ isDNC := false, error := some "Missing phone or API token".toList }, s)
  else
    let cleanPhone := cleanPhoneNumber phone
    if cleanPhone.length ≠ 10 then
      ({ isDNC := false, error := some "Invalid phone number length".toList }, s)
    else
      let answer := W.registry s.env cleanPhone token
      let s1 : Sys σ := { env := answer.2, log := s.log ++ [Event.registry cleanPhone token] }
      match answer.1 with
      | .response data => (interpretDnc data, s1)
      | .failure message => ({ isDNC := false, error := some message }, s1)

/-! ## `searchSerpApiEnhanced` -/

/-- The `type` of a normalised search result. -/
inductive ResultType
  | organic
  | knowledge_graph
  | local_business
  | answer_box
deriving DecidableEq, Repr

/-- A normalised search result `{ url, title, snippet, type }`. -/
structure SearchResult where
  url : UrlVal
  title : Str
  snippet : Str
  type : ResultType
deriving DecidableEq, Repr

/-- The expression `[...].filter(Boolean).join(' ')` on string-or-undefined
entries. -/
def joinTruthy (parts : List Field) : Str :=
  [' '].intercalate (parts.filterMap (fun x =>
    match x with
    | some s => if truthy s then some s else none
    | none => none))

/-- The results pushed for `data.organic_results`. -/
def organicResults (data : SerpData) : List SearchResult :=
  match data.organic_results with
  | some rs => rs.map (fun result =>
      { url := result.link, title := orDefault result.title [],
        snippet := orDefault result.snippet [], type := .organic })
  | none => []

/-- The result pushed for `data.knowledge_graph`. -/
def knowledgeGraphResults (data : SerpData) : List SearchResult :=
  match data.knowledge_graph with
  | some kg =>
    let kgText := joinTruthy [kg.title, kg.description, kg.phone, kg.email, kg.profiles, kg.contact]
    [{ url := .str (orDefault kg.website []), title := orDefault kg.title [],
       snippet := kgText, type := .knowledge_graph }]
  | none => []

/-- The results pushed for `data.local_results.places`. -/
def localResults (data : SerpData) : List SearchResult :=
  match data.places with
  | some ps => ps.map (fun place =>
      let placeText := joinTruthy [place.title, place.address, place.phone, place.website]
      { url := .str (orDefault place.website []), title := orDefault place.title [],
        snippet := placeText, type := .local_business })
  | none => []

/-- The result pushed for `data.answer_box`. -/
def answerBoxResults (data : SerpData) : List SearchResult :=
  match data.answer_box with
  | some ab =>
    let abText := joinTruthy [ab.answer, ab.title, ab.snippet]
    if truthy abText then
      [{ url := .str (orDefault ab.link []), title := orDefault ab.title [],
         snippet := abText, type := .answer_box }]
    else []
  | none => []

/-- The normalisation of a response body in `searchSerpApiEnhanced`. -/
def normalizeSerp (data : SerpData) : List SearchResult :=
  organicResults data ++ knowledgeGraphResults data ++ localResults data ++
    answerBoxResults data

/-- The function `searchSerpApiEnhanced(query, apiKey)`. -/
def searchSerpApiEnhanced {σ : Type} (W : World σ) (query apiKey : Str) (s : Sys σ) :
    List SearchResult × Sys σ :=
  let answer := W.serp s.env query apiKey
  let s1 : Sys σ := { env := answer.2, log := s.log ++ [Event.search query apiKey] }
  match answer.1 with
  | .response data => (normalizeSerp data, s1)
  | .failure => ([], s1)

/-! ## `tryScrapeSafe` -/

/-- The test `url.includes('linkedin.com') || url.includes('zillow.com') ||
url.includes('facebook.com')`. -/
def scrapeBlocked (url : Str) : Bool :=
  includes url "linkedin.com".toList || includes url "zillow.com".toList ||
    includes url "facebook.com".toList

/-- The function `tryScrapeSafe(url)`: `null` is `none`.  On a value without an `includes`
method the first test raises a `TypeError` outside the `try`. -/
def tryScrapeSafe {σ : Type} (W : World σ) (url : UrlVal) (s : Sys σ) :
    Completion (Option ContactInfo) × Sys σ :=
  match url with
  | .undefined => (.thrown, s)
  | .other => (.thrown, s)
  | .str u =>
    if scrapeBlocked u then (.normal none, s)
    else
      let answer := W.page s.env u
      let s1 : Sys σ := { env := answer.2, log := s.log ++ [Event.fetch u] }
      match answer.1 with
      | some text => (.normal (some (extractContactInfo text)), s1)
      | none => (.normal none, s1)

/-! ## `processRealtor` -/

/-- The request body `realtorData`: every property is a string or missing. -/
structure RealtorData where
  firstName : Field := none
  lastName : Field := none
  company : Field := none
  work_email : Field := none
  mobile_phone : Field := none
  personal_email : Field := none
  title : Field := none
  city : Field := none
  state : Field := none
  trailing_14_units : Field := none
  tags : Field := none
deriving DecidableEq, Repr

/-- The object returned by `processRealtor`. -/
structure EnrichedRealtor where
  firstName : Field
  lastName : Field
  company : Field
  work_email : Str
  mobile_phone : Str
  personal_email : Str
  title : Str
  city : Str
  state : Str
  trailing_14_units : Str
  tags : Str
  source : Str
  confidence : Nat
deriving DecidableEq, Repr

/-- The text a template literal inserts for a string-or-undefined value. -/
def interpolate : Field → Str
  | some s => s
  | none => "undefined".toList

/-- The array `queries` of `processRealtor`. -/
def queries (firstName lastName company : Field) : List Str :=
  let f := interpolate firstName
  let l := interpolate lastName
  let c := interpolate company
  [ f ++ " ".toList ++ l ++ " ".toList ++ c ++ " email phone contact".toList,
    f ++ " ".toList ++ l ++ " ".toList ++ c ++ " email cell contact".toList,
    f ++ " ".toList ++ l ++ " ".toList ++ c ++ " mortgage lender contact".toList,
    f ++ " ".toList ++ l ++ " mortgage lender ".toList ++ c,
    "\"".toList ++ f ++ " ".toList ++ l ++ "\" mortgage lender ".toList ++ c ]

/-- The accumulator `allContacts`. -/
structure AllContacts where
  emails : List Str
  phones : List Str
  sources : List UrlVal
deriving DecidableEq, Repr

/-- The initial value of `allContacts`. -/
def noContacts : AllContacts := { emails := [], phones := [], sources := [] }

/-- What holds of `allContacts` throughout a run: the emails are non-empty, a
phone has ten digits or eleven starting with `1`, the sources are truthy, and
there is a source exactly when there is an email or a phone. -/
def AllContacts.WellFormed (all : AllContacts) : Prop :=
  (∀ e ∈ all.emails, e ≠ []) ∧
  (∀ p ∈ all.phones, (p.filter isDigit).length = 10 ∨
    ((p.filter isDigit).length = 11 ∧ (p.filter isDigit).head? = some '1')) ∧
  (∀ u ∈ all.sources, u.truthy = true) ∧
  (all.sources = [] ↔ all.emails = [] ∧ all.phones = [])

/-- The test `allContacts.emails.length > 0 || allContacts.phones.length > 0`. -/
def AllContacts.found (all : AllContacts) : Bool :=
  decide (all.emails.length > 0) || decide (all.phones.length > 0)

/-- The value `snippetContact` of a result: the contacts read from its title,
a blank and its snippet. -/
def snippetContact (result : SearchResult) : ContactInfo :=
  extractContactInfo (result.title ++ " ".toList ++ result.snippet)

/-- The body of the loop over `searchResults` that reads the snippets. -/
def snippetStep (all : AllContacts) (result : SearchResult) : AllContacts :=
  if decide ((snippetContact result).emails.length > 0) ||
      decide ((snippetContact result).phones.length > 0) then
    { emails := all.emails ++ (snippetContact result).emails,
      phones := all.phones ++ (snippetContact result).phones,
      sources := all.sources ++ [result.url.orDefault "search_snippet".toList] }
  else all

/-- The loop over `searchResults` that reads the snippets. -/
def snippetLoop (searchResults : List SearchResult) (all : AllContacts) : AllContacts :=
  searchResults.foldl snippetStep all

/-- The loop over `searchResults.slice(0, 5)` that scrapes the pages, run on
the sliced list. -/
def scrapeLoop {σ : Type} (W : World σ) :
    List SearchResult → AllContacts → Sys σ → Completion AllContacts × Sys σ
  | [], all, s => (.normal all, s)
  | result :: rest, all, s =>
    if !result.url.truthy then scrapeLoop W rest all s
    else
      match tryScrapeSafe W result.url (s.record (.scrape result.url)) with
      | (.thrown, s1) => (.thrown, s1)
      | (.normal scrapedContact, s1) =>
        let all1 :=
          match scrapedContact with
          | some sc =>
            if decide (sc.emails.length > 0) || decide (sc.phones.length > 0) then
              { emails := all.emails ++ sc.emails, phones := all.phones ++ sc.phones,
                sources := all.sources ++ [result.url] }
            else all
          | none => all
        scrapeLoop W rest all1 (s1.record (.sleep 1000))

/-- The loop `for (const query of queries)`. -/
def queryLoop {σ : Type} (W : World σ) (apiKey : Str) :
    List Str → AllContacts → Sys σ → Completion AllContacts × Sys σ
  | [], all, s => (.normal all, s)
  | query :: rest, all, s =>
    let searched := searchSerpApiEnhanced W query apiKey s
    let all1 := snippetLoop searched.1 all
    if all1.found then (.normal all1, searched.2)
    else
      match scrapeLoop W (searched.1.take 5) all1 searched.2 with
      | (.thrown, s2) => (.thrown, s2)
      | (.normal all2, s2) =>
        if all2.found then (.normal all2, s2)
        else queryLoop W apiKey rest all2 (s2.record (.sleep 2000))

/-- The object returned from the `catch` block of `processRealtor`. -/
def unchangedRealtor (realtorData : RealtorData) : EnrichedRealtor :=
  { firstName := realtorData.firstName,
    lastName := realtorData.lastName,
    company := realtorData.company,
    work_email := orDefault realtorData.work_email [],
    mobile_phone := orDefault realtorData.mobile_phone [],
    personal_email := orDefault realtorData.personal_email [],
    title := orDefault realtorData.title [],
    city := orDefault realtorData.city [],
    state := orDefault realtorData.state [],
    trailing_14_units := orDefault realtorData.trailing_14_units [],
    tags := orDefault realtorData.tags [],
    source := [],
    confidence := 0 }

/-- The statements of `processRealtor` after the loop, inside the `try`.  When
`source` is a value without an `includes` method, `calculateConfidence` raises a
`TypeError`. -/
def assemble (realtorData : RealtorData) (all : AllContacts) : Completion EnrichedRealtor :=
  let uniqueEmails := uniqueInOrder all.emails
  let uniquePhones := uniqueInOrder all.phones
  let email := strOr (uniqueEmails.headD []) []
  let phone := strOr (uniquePhones.headD []) []
  match (all.sources.headD .undefined).orDefault [] with
  | .str source =>
    let confidence := calculateConfidence email phone source
    .normal
      { firstName := realtorData.firstName,
        lastName := realtorData.lastName,
        company := realtorData.company,
        work_email := strOr email (orDefault realtorData.work_email []),
        mobile_phone := strOr (cleanPhoneNumber phone) (orDefault realtorData.mobile_phone []),
        personal_email := orDefault realtorData.personal_email [],
        title := orDefault realtorData.title [],
        city := orDefault realtorData.city [],
        state := orDefault realtorData.state [],
        trailing_14_units := orDefault realtorData.trailing_14_units [],
        tags := orDefault realtorData.tags [],
        source := source,
        confidence := confidence }
  | _ => .thrown

/-- The function `processRealtor(realtorData, apiKey)`. -/
def processRealtor {σ : Type} (W : World σ) (realtorData : RealtorData) (apiKey : Str)
    (s : Sys σ) : EnrichedRealtor × Sys σ :=
  let qs := queries realtorData.firstName realtorData.lastName realtorData.company
  match queryLoop W apiKey qs noContacts s with
  | (.thrown, s1) => (unchangedRealtor realtorData, s1)
  | (.normal all, s1) =>
    match assemble realtorData all with
    | .normal result => (result, s1)
    | .thrown => (unchangedRealtor realtorData, s1)

/-! ## The single-record branch of `POST /api/process-realtors` -/

/-- An element of the array `realtors` of the request body: a record as parsed
from the file or as returned by `processRealtor`, every property a string or
missing (`confidence` a number or missing). -/
structure Realtor where
  firstName : Field := none
  lastName : Field := none
  company : Field := none
  work_email : Field := none
  mobile_phone : Field := none
  personal_email : Field := none
  title : Field := none
  city : Field := none
  state : Field := none
  trailing_14_units : Field := none
  tags : Field := none
  source : Field := none
  confidence : Option Nat := none
deriving DecidableEq, Repr

/-- The value of `logType`. -/
inductive LogType
  | info
  | success
  | warning
  | error
deriving DecidableEq, Repr

/-- The response `{ realtor, logMessage, logType, index }`, together with the
array `realtors` as it is after the call. -/
structure DncPassResult where
  realtor : Realtor
  logMessage : Str
  logType : LogType
  index : Nat
  realtors : List Realtor
deriving DecidableEq, Repr

/-- The branch `if (index !== undefined)` of the handler of
`POST /api/process-realtors`, with the configured token as a parameter.  The
local `realtor` is the copy `{ ...realtors[index] }`, the empty object when the
index is out of range; the assignment to `realtor.tags` writes to the copy.
Nothing inside the inner `try` throws on such records, so its `catch` is not
reached. -/
def dncPass {σ : Type} (W : World σ) (token : Str) (realtors : List Realtor) (index : Nat)
    (s : Sys σ) : DncPassResult × Sys σ :=
  let realtor : Realtor := (realtors.get? index).getD {}
  let name := interpolate realtor.firstName ++ " ".toList ++ interpolate realtor.lastName
  if truthy (orDefault realtor.mobile_phone []) then
    let checked := checkDNCStatus W token (orDefault realtor.mobile_phone []) s
    let dncResult := checked.1
    if truthy (orDefault dncResult.error []) then
      ({ realtor := realtor,
         logMessage := name ++ ": DNC check failed - ".toList ++ orDefault dncResult.error [],
         logType := .warning, index := index, realtors := realtors }, checked.2)
    else if dncResult.isDNC = true then
      let currentTags := orDefault realtor.tags []
      ({ realtor := { realtor with
           tags := some (if truthy currentTags then currentTags ++ ",dnc".toList
                         else "dnc".toList) },
         logMessage := name ++ ": On DNC list".toList,
         logType := .error, index := index, realtors := realtors }, checked.2)
    else
      ({ realtor := realtor,
         logMessage := name ++ ": Clear - not on DNC".toList,
         logType := .success, index := index, realtors := realtors }, checked.2)
  else
    ({ realtor := realtor, logMessage := [], logType := .info, index := index,
       realtors := realtors }, s)

/-! ## Where the contacts of a run come from -/

/-- The contacts `ci` are what a run in the world `W` reads from a search
result and records under the source `src`: either from the title and snippet of
the result, the source being its `url` or the sentinel `search_snippet`, or from
the page fetched at its `url`, the source being that `url`. -/
def Origin {σ : Type} (W : World σ) (src : UrlVal) (ci : ContactInfo) : Prop :=
  ∃ (env : σ) (q k : Str) (data : SerpData) (res : SearchResult),
    (W.serp env q k).1 = .response data ∧ res ∈ normalizeSerp data ∧
    ((src = res.url.orDefault "search_snippet".toList ∧ ci = snippetContact res) ∨
     (src = res.url ∧ ∃ (env2 : σ) (u text : Str),
        res.url = .str u ∧ (W.page env2 u).1 = some text ∧ ci = extractContactInfo text))

/-- The first source of `all` is `src`, and the emails and the phones of `all`
begin with those of `ci`, which are not both empty. -/
def AllContacts.StartsWith (all : AllContacts) (src : UrlVal) (ci : ContactInfo) : Prop :=
  all.sources.head? = some src ∧ (∃ es, all.emails = ci.emails ++ es) ∧
  (∃ ps, all.phones = ci.phones ++ ps) ∧ (ci.emails ≠ [] ∨ ci.phones ≠ [])

/-- Nothing is recorded yet, or the first source and the first contacts of `all`
come from one result of a search in `W`. -/
def AllContacts.Traced {σ : Type} (W : World σ) (all : AllContacts) : Prop :=
  all.sources = [] ∨ ∃ src ci, Origin W src ci ∧ all.StartsWith src ci

/-! ## Reading a log -/

/-- The values on which `tryScrapeSafe` was called, in order. -/
def scrapeCalls (log : List Event) : List UrlVal :=
  log.filterMap (fun e =>
    match e with
    | .scrape u => some u
    | _ => none)

/-- The queries of the search requests, in order. -/
def searchCalls (log : List Event) : List Str :=
  log.filterMap (fun e =>
    match e with
    | .search q _ => some q
    | _ => none)

/-- The calls of `tryScrapeSafe` made when a loop goes through truthy `url`
values in order: all of them up to and including the first one that is no
string, on which the call throws. -/
def untilThrow : List UrlVal → List UrlVal
  | [] => []
  | .str u :: rest => .str u :: untilThrow rest
  | v :: _ => [v]

/-! ## Example inputs -/

/-- A run that starts with an empty log. -/
def start : Sys Unit := { env := (), log := [] }

/-- The record `{first: "Jane", last: "Doe", company: "Acme Lending"}`. -/
def janeRecord : RealtorData :=
  { firstName := some "Jane".toList, lastName := some "Doe".toList,
    company := some "Acme Lending".toList }

/-- The same person with a work email and a mobile phone already on record. -/
def janeOnRecord : RealtorData :=
  { firstName := some "Jane".toList, lastName := some "Doe".toList,
    company := some "Acme Lending".toList,
    work_email := some "jdoe@oldmail.com".toList,
    mobile_phone := some "5550001111".toList }

/-- A search response with one organic result whose snippet carries an email. -/
def janeSerp : SerpData :=
  { organic_results := some
      [{ link := .str "https://acmelending.com/team".toList,
         title := some "Our team".toList,
         snippet := some "Jane Doe Acme Lending jane.doe@acmelending.com".toList }],
    knowledge_graph := none, places := none, answer_box := none }

/-- A world in which every search returns `janeSerp`, and pages and the registry
are unreachable. -/
def janeWorld : World Unit :=
  { serp := fun _ _ _ => (.response janeSerp, ()),
    page := fun _ _ => (none, ()),
    registry := fun _ _ _ => (.failure "timeout of 10000ms exceeded".toList, ()) }

/-- A world in which searches fail, pages are unreachable and the registry is
unreachable. -/
def silentWorld : World Unit :=
  { serp := fun _ _ _ => (.failure, ()),
    page := fun _ _ => (none, ()),
    registry := fun _ _ _ => (.failure "timeout of 10000ms exceeded".toList, ()) }

/-- A world whose first search fails and whose later searches return
`janeSerp`; its state counts the searches. -/
def secondTryWorld : World Nat :=
  { serp := fun n _ _ => (if n = 0 then .failure else .response janeSerp, n + 1),
    page := fun n _ => (none, n),
    registry := fun n _ _ => (.failure "timeout of 10000ms exceeded".toList, n) }

/-- The registry answer `{RESPONSECODE: "OK", national_dnc: "Y", state_dnc: "N",
iscell: "Y"}`. -/
def listedAnswer : DncData :=
  { RESPONSECODE := some "OK".toList, RESPONSEMSG := none,
    national_dnc := some "Y".toList, state_dnc := some "N".toList,
    iscell := some "Y".toList, litigator := none, id := none }

/-- A world whose registry always answers `listedAnswer`. -/
def listedWorld : World Unit :=
  { serp := fun _ _ _ => (.failure, ()),
    page := fun _ _ => (none, ()),
    registry := fun _ _ _ => (.response listedAnswer, ()) }

/-- A record tagged `"TX Mortgage Lender"` with a ten-digit mobile phone. -/
def txRecord : Realtor :=
  { firstName := some "Jane".toList, lastName := some "Doe".toList,
    company := some "Acme Lending".toList,
    mobile_phone := some "5550001111".toList,
    tags := some "TX Mortgage Lender".toList }

/-- A world whose registry request fails with an error whose `message` is the
empty string. -/
def emptyMessageWorld : World Unit :=
  { serp := fun _ _ _ => (.failure, ()),
    page := fun _ _ => (none, ()),
    registry := fun _ _ _ => (.failure [], ()) }

/-- A search response with six organic results without a contact in title or
snippet: the first has no link, the other five have one. -/
def sixResults : SerpData :=
  { organic_results := some
      [{ link := .undefined, title := some "Directory".toList, snippet := none },
       { link := .str "https://site1.com".toList, title := none, snippet := none },
       { link := .str "https://site2.com".toList, title := none, snippet := none },
       { link := .str "https://site3.com".toList, title := none, snippet := none },
       { link := .str "https://site4.com".toList, title := none, snippet := none },
       { link := .str "https://site5.com".toList, title := none, snippet := none }],
    knowledge_graph := none, places := none, answer_box := none }

/-- A world in which every search returns `sixResults` and no page can be
fetched. -/
def sixResultsWorld : World Unit :=
  { serp := fun _ _ _ => (.response sixResults, ()),
    page := fun _ _ => (none, ()),
    registry := fun _ _ _ => (.failure "timeout of 10000ms exceeded".toList, ()) }

/-- A search response with two organic results without a contact in title or
snippet: the first links to a page, the `link` of the second is no string. -/
def badLinkSerp : SerpData :=
  { organic_results := some
      [{ link := .str "https://acmelending.com/team".toList,
         title := some "Our team".toList, snippet := none },
       { link := .other, title := some "Directory".toList, snippet := none }],
    knowledge_graph := none, places := none, answer_box := none }

/-- A world in which every search returns `badLinkSerp` and every page shows
the email of Jane Doe. -/
def badLinkWorld : World Unit :=
  { serp := fun _ _ _ => (.response badLinkSerp, ()),
    page := fun _ _ => (some "Contact: jane.doe@acmelending.com".toList, ()),
    registry := fun _ _ _ => (.failure "timeout of 10000ms exceeded".toList, ()) }

/-- A world in which every search returns one organic result whose snippet
carries an email and whose `link` is no string. -/
def badSourceWorld : World Unit :=
  { serp := fun _ _ _ => (.response
      { organic_results := some
          [{ link := .other, title := some "Our team".toList,
             snippet := some "Jane Doe Acme Lending jane.doe@acmelending.com".toList }],
        knowledge_graph := none, places := none, answer_box := none }, ()),
    page := fun _ _ => (none, ()),
    registry := fun _ _ _ => (.failure "timeout of 10000ms exceeded".toList, ()) }

/-! ## Lemmas on the helper functions -/

theorem uniqueInOrder_eq_foldl (xs : List Str) :
    uniqueInOrder xs = xs.foldl insertNew [] := rfl

theorem foldl_insertNew_append (seen xs : List Str) (y : Str) :
    (xs ++ [y]).foldl insertNew seen = insertNew (xs.foldl insertNew seen) y := by
  simp [List.foldl_append]

theorem mem_foldl_insertNew (xs seen : List Str) (y : Str) :
    y ∈ xs.foldl insertNew seen ↔ y ∈ seen ∨ y ∈ xs := by
  induction xs generalizing seen with
  | nil => simp
  | cons x xs ih =>
    simp only [List.foldl_cons, ih, insertNew]
    by_cases hx : x ∈ seen
    · simp only [hx, if_true, List.mem_cons]
      constructor
      · rintro (h | h)
        · exact Or.inl h
        · exact Or.inr (Or.inr h)
      · rintro (h | h | h)
        · exact Or.inl h
        · exact Or.inl (h ▸ hx)
        · exact Or.inr h
    · simp only [hx, if_false, List.mem_append, List.mem_singleton, List.mem_cons]
      tauto

theorem nodup_foldl_insertNew (xs seen : List Str) (h : seen.Nodup) :
    (xs.foldl insertNew seen).Nodup := by
  induction xs generalizing seen with
  | nil => simpa using h
  | cons x xs ih =>
    simp only [List.foldl_cons]
    apply ih
    unfold insertNew
    by_cases hx : x ∈ seen
    · simpa [hx] using h
    · simp only [hx, if_false]
      rw [List.nodup_append]
      refine ⟨h, List.nodup_singleton x, ?_⟩
      intro a ha hb
      rw [List.mem_singleton] at hb
      exact hx (hb ▸ ha)

theorem insertNew_of_mem {seen : List Str} {x : Str} (h : x ∈ seen) :
    insertNew seen x = seen := by
  simp [insertNew, h]

theorem insertNew_of_not_mem {seen : List Str} {x : Str} (h : x ∉ seen) :
    insertNew seen x = seen ++ [x] := by
  simp [insertNew, h]

theorem foldl_insertNew_split (xs seen : List Str) :
    xs.foldl insertNew seen
      = seen ++ (xs.foldl insertNew []).filter (fun y => decide (y ∉ seen)) := by
  induction xs using List.reverseRecOn with
  | nil => simp
  | append_singleton ys y ih =>
    rw [foldl_insertNew_append, foldl_insertNew_append, ih]
    by_cases hs : y ∈ seen
    · have h1 : y ∈ seen ++ (ys.foldl insertNew []).filter (fun y => decide (y ∉ seen)) :=
        List.mem_append_left _ hs
      rw [insertNew_of_mem h1]
      by_cases hy : y ∈ ys.foldl insertNew []
      · rw [insertNew_of_mem hy]
      · rw [insertNew_of_not_mem hy, List.filter_append]
        simp [hs]
    · by_cases hy : y ∈ ys.foldl insertNew []
      · have h1 : y ∈ seen ++ (ys.foldl insertNew []).filter (fun y => decide (y ∉ seen)) :=
          List.mem_append_right _ (List.mem_filter.mpr ⟨hy, by simpa using hs⟩)
        rw [insertNew_of_mem h1, insertNew_of_mem hy]
      · have h1 : y ∉ seen ++ (ys.foldl insertNew []).filter (fun y => decide (y ∉ seen)) := by
          intro h
          rcases List.mem_append.mp h with h | h
          · exact hs h
          · exact hy (List.mem_filter.mp h).1
        rw [insertNew_of_not_mem h1, insertNew_of_not_mem hy, List.filter_append]
        simp [hs]

theorem uniqueInOrder_nil : uniqueInOrder [] = [] := rfl

/-- The first element stays first and its later copies are dropped. -/
theorem uniqueInOrder_cons (x : Str) (xs : List Str) :
    uniqueInOrder (x :: xs) = x :: (uniqueInOrder xs).filter (fun y => decide (y ≠ x)) := by
  rw [uniqueInOrder_eq_foldl, uniqueInOrder_eq_foldl, List.foldl_cons]
  have h : insertNew [] x = [x] := by simp [insertNew]
  rw [h, foldl_insertNew_split]
  simp

theorem mem_uniqueInOrder (xs : List Str) (y : Str) : y ∈ uniqueInOrder xs ↔ y ∈ xs := by
  rw [uniqueInOrder_eq_foldl, mem_foldl_insertNew]
  simp

theorem nodup_uniqueInOrder (xs : List Str) : (uniqueInOrder xs).Nodup := by
  rw [uniqueInOrder_eq_foldl]
  exact nodup_foldl_insertNew xs [] List.nodup_nil

theorem head?_uniqueInOrder (xs : List Str) : (uniqueInOrder xs).head? = xs.head? := by
  cases xs with
  | nil => rfl
  | cons x xs => rw [uniqueInOrder_cons]; rfl

theorem headD_uniqueInOrder (xs : List Str) (d : Str) :
    (uniqueInOrder xs).headD d = xs.headD d := by
  cases xs with
  | nil => rfl
  | cons x xs => rw [uniqueInOrder_cons]; rfl

/-- The elements of `uniqueInOrder xs` are listed by increasing position of their
first occurrence in `xs`. -/
theorem pairwise_uniqueInOrder (xs : List Str) :
    (uniqueInOrder xs).Pairwise (fun a b => firstIndex a xs < firstIndex b xs) := by
  induction xs with
  | nil => simp [uniqueInOrder_nil]
  | cons x xs ih =>
    rw [uniqueInOrder_cons, List.pairwise_cons]
    constructor
    · intro b hb
      have hne : b ≠ x := by simpa using (List.mem_filter.mp hb).2
      simp [firstIndex, Ne.symm hne]
    · have hsub : ((uniqueInOrder xs).filter (fun y => decide (y ≠ x))).Pairwise
          (fun a b => firstIndex a xs < firstIndex b xs) :=
        ih.sublist (List.filter_sublist _)
      refine (List.Pairwise.and_mem.mp hsub).imp ?_
      rintro a b ⟨ha, hb, hab⟩
      have hax : a ≠ x := by simpa using (List.mem_filter.mp ha).2
      have hbx : b ≠ x := by simpa using (List.mem_filter.mp hb).2
      simp [firstIndex, Ne.symm hax, Ne.symm hbx, hab]

/-- The function `includes` decides the contiguous-substring relation. -/
theorem includes_iff (s sub : Str) : includes s sub = true ↔ sub <:+: s := by
  induction s with
  | nil =>
    cases sub with
    | nil => simp [includes]
    | cons a as => simp [includes]
  | cons c cs ih =>
    rw [includes, Bool.or_eq_true, ih, List.isPrefixOf_iff_prefix, List.infix_cons_iff]

/-! ## Lemmas on the matchers -/

theorem Yields.mono {k : Matcher} {P Q : Str → Prop} (h : Yields k P)
    (hPQ : ∀ w, P w → Q w) : Yields k Q :=
  fun prev s w hw => hPQ w (h prev s w hw)

theorem yields_accept : Yields accept (fun w => w = []) := by
  intro prev s w hw
  simp only [accept, Option.some.injEq] at hw
  exact hw.symm

theorem yields_one {p : Char → Bool} {k : Matcher} {P : Str → Prop} (h : Yields k P) :
    Yields (one p k) (fun w => ∃ c w', w = c :: w' ∧ p c = true ∧ P w') := by
  intro prev s w hw
  cases s with
  | nil => simp [one] at hw
  | cons c cs =>
    simp only [one] at hw
    by_cases hp : p c = true
    · rw [if_pos hp] at hw
      cases hk : k (some c) cs with
      | none => rw [hk] at hw; simp at hw
      | some w' =>
        rw [hk] at hw
        simp only [Option.map_some', Option.some.injEq] at hw
        exact ⟨c, w', hw.symm, hp, h _ _ _ hk⟩
    · rw [if_neg hp] at hw
      cases hw

theorem yields_opt {p : Char → Bool} {k : Matcher} {P : Str → Prop} (h : Yields k P) :
    Yields (opt p k) (fun w => P w ∨ ∃ c w', w = c :: w' ∧ p c = true ∧ P w') := by
  intro prev s w hw
  simp only [opt] at hw
  cases h1 : one p k prev s with
  | some w1 =>
    rw [h1] at hw
    simp only [Option.some.injEq] at hw
    subst hw
    exact Or.inr (yields_one h prev s w1 h1)
  | none =>
    rw [h1] at hw
    exact Or.inl (h _ _ _ hw)

theorem yields_star {p : Char → Bool} {k : Matcher} {P : Str → Prop} (h : Yields k P) :
    Yields (star p k)
      (fun w => ∃ run w', w = run ++ w' ∧ (∀ c ∈ run, p c = true) ∧ P w') := by
  intro prev s
  induction s generalizing prev with
  | nil =>
    intro w hw
    simp only [star] at hw
    exact ⟨[], w, rfl, by simp, h _ _ _ hw⟩
  | cons c cs ih =>
    intro w hw
    simp only [star] at hw
    by_cases hp : p c = true
    · rw [if_pos hp] at hw
      cases hs : star p k (some c) cs with
      | some w1 =>
        rw [hs] at hw
        simp only [Option.some.injEq] at hw
        obtain ⟨run, w', hw1, hrun, hP⟩ := ih (some c) w1 hs
        refine ⟨c :: run, w', ?_, ?_, hP⟩
        · rw [← hw, hw1]; rfl
        · intro d hd
          rcases List.mem_cons.mp hd with hd | hd
          · exact hd ▸ hp
          · exact hrun d hd
      | none =>
        rw [hs] at hw
        exact ⟨[], w, rfl, by simp, h _ _ _ hw⟩
    · rw [if_neg hp] at hw
      exact ⟨[], w, rfl, by simp, h _ _ _ hw⟩

theorem yields_wordBoundary {k : Matcher} {P : Str → Prop} (h : Yields k P) :
    Yields (wordBoundary k) P := by
  intro prev s w hw
  simp only [wordBoundary] at hw
  split at hw
  · exact h _ _ _ hw
  · cases hw

theorem yields_optGroup {g : Matcher → Matcher} {k : Matcher} {P Q : Str → Prop}
    (hg : Yields (g k) Q) (hk : Yields k P) :
    Yields (optGroup g k) (fun w => Q w ∨ P w) := by
  intro prev s w hw
  simp only [optGroup] at hw
  cases h1 : g k prev s with
  | some w1 =>
    rw [h1] at hw
    simp only [Option.some.injEq] at hw
    subst hw
    exact Or.inl (hg _ _ _ h1)
  | none =>
    rw [h1] at hw
    exact Or.inr (hk _ _ _ hw)

/-- Every element of the array of matches is a match. -/
theorem mem_scan {m : Matcher} {P : Str → Prop} (h : Yields m P) :
    ∀ (s : Str) (n : Nat) (prev : Option Char) (w : Str), w ∈ scan m n prev s → P w := by
  intro s
  induction s with
  | nil =>
    intro n prev w hw
    simp only [scan] at hw
    cases hm : m prev [] with
    | some w1 =>
      rw [hm] at hw
      rw [List.mem_singleton] at hw
      exact hw ▸ h _ _ _ hm
    | none => rw [hm] at hw; cases hw
  | cons c cs ih =>
    intro n prev w hw
    cases n with
    | succ n =>
      simp only [scan] at hw
      exact ih _ _ _ hw
    | zero =>
      simp only [scan] at hw
      cases hm : m prev (c :: cs) with
      | some w1 =>
        rw [hm] at hw
        rcases List.mem_cons.mp hw with hw | hw
        · exact hw ▸ h _ _ _ hm
        · exact ih _ _ _ hw
      | none =>
        rw [hm] at hw
        exact ih _ _ _ hw

theorem mem_matchAll {m : Matcher} {P : Str → Prop} (h : Yields m P) (text w : Str)
    (hw : w ∈ matchAll m text) : P w :=
  mem_scan h text 0 none w hw

/-! ## What the two patterns match -/

theorem char_eq_iff_toNat (c d : Char) : c = d ↔ c.toNat = d.toNat := by
  constructor
  · intro h; rw [h]
  · intro h
    apply Char.ext
    apply UInt32.ext
    exact h

theorem isSepChar_not_digit (c : Char) (h : isSepChar c = true) : isDigit c = false := by
  simp only [isSepChar, isSpace, Bool.or_eq_true, Bool.and_eq_true, decide_eq_true_eq,
    beq_iff_eq, char_eq_iff_toNat, Char.reduceToNat] at h
  simp only [isDigit, Bool.and_eq_false_iff, decide_eq_false_iff_not]
  omega

theorem eq_char_not_digit (a c : Char) (ha : isDigit a = false) (h : (c == a) = true) :
    isDigit c = false := by
  rw [beq_iff_eq] at h
  rw [h]; exact ha

/-- A digit in front adds one to the number of digits. -/
theorem yields_digit {k : Matcher} {n : Nat}
    (h : Yields k (fun w => (w.filter isDigit).length = n)) :
    Yields (one isDigit k) (fun w => (w.filter isDigit).length = n + 1) := by
  refine (yields_one h).mono ?_
  rintro w ⟨c, w', rfl, hc, hw'⟩
  simp [List.filter_cons, hc, hw']

/-- An optional character that is no digit leaves the digits as they are. -/
theorem yields_opt_skip {p : Char → Bool} {k : Matcher} {Q : Str → Prop}
    (hp : ∀ c, p c = true → isDigit c = false)
    (h : Yields k (fun w => Q (w.filter isDigit))) :
    Yields (opt p k) (fun w => Q (w.filter isDigit)) := by
  refine (yields_opt h).mono ?_
  rintro w (hw | ⟨c, w', rfl, hc, hw'⟩)
  · exact hw
  · simpa [List.filter_cons, hp c hc] using hw'

/-- The part `\(?\d{3}\)?[-.\s]?\d{3}[-.\s]?\d{4}` of `PHONE_PATTERN`. -/
theorem yields_phone_core :
    Yields
      (opt (· == '(') <| one isDigit <| one isDigit <| one isDigit <|
        opt (· == ')') <| opt isSepChar <|
        one isDigit <| one isDigit <| one isDigit <|
        opt isSepChar <|
        one isDigit <| one isDigit <| one isDigit <| one isDigit <| accept)
      (fun w => (w.filter isDigit).length = 10) := by
  have h0 : Yields accept (fun w => (w.filter isDigit).length = 0) :=
    yields_accept.mono (by rintro w rfl; rfl)
  have h4 := yields_digit (yields_digit (yields_digit (yields_digit h0)))
  have h4s := yields_opt_skip (Q := fun d => d.length = 4) isSepChar_not_digit h4
  have h7 := yields_digit (yields_digit (yields_digit h4s))
  have h7s := yields_opt_skip (Q := fun d => d.length = 7) isSepChar_not_digit h7
  have h7p := yields_opt_skip (Q := fun d => d.length = 7)
    (fun c => eq_char_not_digit ')' c (by decide)) h7s
  have h10 := yields_digit (yields_digit (yields_digit h7p))
  exact yields_opt_skip (Q := fun d => d.length = 10)
    (fun c => eq_char_not_digit '(' c (by decide)) h10

/-- The digits of a match of `PHONE_PATTERN`: ten, or eleven of which the first
is the `1` of the country code. -/
theorem yields_PHONE_PATTERN :
    Yields PHONE_PATTERN (fun w =>
      (w.filter isDigit).length = 10 ∨
      ((w.filter isDigit).length = 11 ∧ (w.filter isDigit).head? = some '1')) := by
  have hcore := yields_phone_core
  have hsep := yields_opt_skip (Q := fun d => d.length = 10) isSepChar_not_digit hcore
  have hone : Yields (one (· == '1') <| opt isSepChar <|
        (opt (· == '(') <| one isDigit <| one isDigit <| one isDigit <|
        opt (· == ')') <| opt isSepChar <|
        one isDigit <| one isDigit <| one isDigit <|
        opt isSepChar <|
        one isDigit <| one isDigit <| one isDigit <| one isDigit <| accept))
      (fun w => (w.filter isDigit).length = 11 ∧ (w.filter isDigit).head? = some '1') := by
    refine (yields_one hsep).mono ?_
    rintro w ⟨c, w', rfl, hc, hw'⟩
    rw [beq_iff_eq] at hc
    subst hc
    have hd : isDigit '1' = true := by decide
    simp [List.filter_cons, hd, hw']
  have hplus := yields_opt_skip
    (Q := fun d => d.length = 11 ∧ d.head? = some '1')
    (fun c => eq_char_not_digit '+' c (by decide)) hone
  exact (yields_optGroup (g := countryCode) hplus hcore).mono
    (fun w hw => hw.symm)

theorem phone_match_digits (text w : Str) (hw : w ∈ matchAll PHONE_PATTERN text) :
    (w.filter isDigit).length = 10 ∨
      ((w.filter isDigit).length = 11 ∧ (w.filter isDigit).head? = some '1') :=
  mem_matchAll yields_PHONE_PATTERN text w hw

theorem isLocalChar_ascii (c : Char) (h : isLocalChar c = true) : c.toNat < 128 := by
  simp only [isLocalChar, isAlpha, isDigit, Bool.or_eq_true, Bool.and_eq_true,
    decide_eq_true_eq, beq_iff_eq, char_eq_iff_toNat, Char.reduceToNat] at h
  omega

theorem isDomainChar_ascii (c : Char) (h : isDomainChar c = true) : c.toNat < 128 := by
  simp only [isDomainChar, isAlpha, isDigit, Bool.or_eq_true, Bool.and_eq_true,
    decide_eq_true_eq, beq_iff_eq, char_eq_iff_toNat, Char.reduceToNat] at h
  omega

theorem isTldChar_ascii (c : Char) (h : isTldChar c = true) : c.toNat < 128 := by
  simp only [isTldChar, isAlpha, Bool.or_eq_true, Bool.and_eq_true,
    decide_eq_true_eq, beq_iff_eq, char_eq_iff_toNat, Char.reduceToNat] at h
  omega

theorem eq_char_ascii (a c : Char) (ha : a.toNat < 128) (h : (c == a) = true) :
    c.toNat < 128 := by
  rw [beq_iff_eq] at h
  rw [h]; exact ha

theorem yields_one_all {p : Char → Bool} {k : Matcher} {A : Char → Prop}
    (hp : ∀ c, p c = true → A c) (h : Yields k (fun w => ∀ c ∈ w, A c)) :
    Yields (one p k) (fun w => ∀ c ∈ w, A c) := by
  refine (yields_one h).mono ?_
  rintro w ⟨c, w', rfl, hc, hw'⟩ d hd
  rcases List.mem_cons.mp hd with hd | hd
  · exact hd ▸ hp c hc
  · exact hw' d hd

theorem yields_star_all {p : Char → Bool} {k : Matcher} {A : Char → Prop}
    (hp : ∀ c, p c = true → A c) (h : Yields k (fun w => ∀ c ∈ w, A c)) :
    Yields (star p k) (fun w => ∀ c ∈ w, A c) := by
  refine (yields_star h).mono ?_
  rintro w ⟨run, w', rfl, hrun, hw'⟩ d hd
  rcases List.mem_append.mp hd with hd | hd
  · exact hp d (hrun d hd)
  · exact hw' d hd

/-- A match of `EMAIL_PATTERN` is a non-empty string of ASCII characters, so
`toLowerCase` acts on it as the JavaScript method does. -/
theorem yields_EMAIL_PATTERN :
    Yields EMAIL_PATTERN (fun w => w ≠ [] ∧ ∀ c ∈ w, c.toNat < 128) := by
  have h0 : Yields (wordBoundary accept) (fun w => ∀ c ∈ w, c.toNat < 128) :=
    yields_wordBoundary (yields_accept.mono (by rintro w rfl c hc; cases hc))
  have htld := yields_one_all isTldChar_ascii
    (yields_one_all isTldChar_ascii (yields_star_all isTldChar_ascii h0))
  have hdot := yields_one_all (p := (· == '.'))
    (fun c => eq_char_ascii '.' c (by decide)) htld
  have hdom := yields_one_all isDomainChar_ascii (yields_star_all isDomainChar_ascii hdot)
  have hat := yields_one_all (p := (· == '@'))
    (fun c => eq_char_ascii '@' c (by decide)) hdom
  have hstar := yields_star_all isLocalChar_ascii hat
  have hall := yields_wordBoundary (yields_one_all isLocalChar_ascii hstar)
  have hne := yields_wordBoundary (yields_one (p := isLocalChar) hstar)
  intro prev s w hw
  refine ⟨?_, hall prev s w hw⟩
  obtain ⟨c, w', rfl, _, _⟩ := hne prev s w hw
  exact List.cons_ne_nil c w'

theorem email_match_ne_nil (text w : Str) (hw : w ∈ matchAll EMAIL_PATTERN text) :
    w ≠ [] :=
  (mem_matchAll yields_EMAIL_PATTERN text w hw).1

/-! ## `extractContactInfo` and `calculateConfidence` -/

theorem emailAllowed_iff (e : Str) :
    emailAllowed e = true ↔ ∀ m ∈ blockedMarkers, ¬ (m <:+: toLowerCase e) := by
  simp only [emailAllowed, blockedMarkers, Bool.and_eq_true, Bool.not_eq_true',
    ← Bool.not_eq_true, includes_iff, List.mem_cons, List.mem_singleton, List.not_mem_nil,
    or_false, forall_eq_or_imp, forall_eq]
  tauto

/-- C1: for every text `extractContactInfo` returns at most 5 emails and at most
5 phones, neither list holds a string twice, and no returned email, once
lowercased, contains one of the markers `noreply`, `support`, `info@`, `admin`,
`example`, `test`, `privacy`, `abuse` as a substring. -/
theorem C1_extract_capped_unique_unblocked (text : Str) :
    (extractContactInfo text).emails.length ≤ 5 ∧
    (extractContactInfo text).phones.length ≤ 5 ∧
    (extractContactInfo text).emails.Nodup ∧
    (extractContactInfo text).phones.Nodup ∧
    ∀ e ∈ (extractContactInfo text).emails,
      ∀ m ∈ ["noreply".toList, "support".toList, "info@".toList, "admin".toList,
             "example".toList, "test".toList, "privacy".toList, "abuse".toList],
        ¬ (m <:+: e.map Char.toLower) := by
  refine ⟨?_, ?_, ?_, ?_, ?_⟩
  · simp only [extractContactInfo, List.length_take]
    exact Nat.min_le_left _ _
  · simp only [extractContactInfo, List.length_take]
    exact Nat.min_le_left _ _
  · simp only [extractContactInfo]
    exact ((nodup_uniqueInOrder _).filter _).sublist (List.take_sublist _ _)
  · simp only [extractContactInfo]
    exact (nodup_uniqueInOrder _).sublist (List.take_sublist _ _)
  · intro e he
    simp only [extractContactInfo] at he
    have hf := List.mem_of_mem_take he
    exact (emailAllowed_iff e).mp (List.mem_filter.mp hf).2

/-- C2: the returned emails are the first 5 of the list `es` of the distinct
email matches that pass the filter, listed by first appearance in the array of
matches, and the returned phones are the first 5 of the list `ps` of the distinct
phone matches, listed by first appearance.  The filter therefore runs before the
cap: when at most 5 distinct matches pass the filter, every one of them is
returned however many blocked addresses come first, as in the text with six
blocked addresses followed by `jane@acme.com`. -/
theorem C2_filter_then_cap (text : Str) :
    (∃ es ps : List Str,
      (extractContactInfo text).emails = es.take 5 ∧
      (extractContactInfo text).phones = ps.take 5 ∧
      es.Nodup ∧
      (∀ e, e ∈ es ↔ e ∈ matchAll EMAIL_PATTERN text ∧ emailAllowed e = true) ∧
      es.Pairwise (fun a b =>
        firstIndex a (matchAll EMAIL_PATTERN text) < firstIndex b (matchAll EMAIL_PATTERN text)) ∧
      ps.Nodup ∧
      (∀ p, p ∈ ps ↔ p ∈ matchAll PHONE_PATTERN text) ∧
      ps.Pairwise (fun a b =>
        firstIndex a (matchAll PHONE_PATTERN text) < firstIndex b (matchAll PHONE_PATTERN text)) ∧
      (es.length ≤ 5 → ∀ e ∈ matchAll EMAIL_PATTERN text, emailAllowed e = true →
        e ∈ (extractContactInfo text).emails)) ∧
    (extractContactInfo
      ("noreply@a.com support@a.com info@a.com admin@a.com test@a.com abuse@a.com " ++
        "jane@acme.com").toList).emails = ["jane@acme.com".toList] := by
  refine ⟨⟨(uniqueInOrder (matchAll EMAIL_PATTERN text)).filter emailAllowed,
    uniqueInOrder (matchAll PHONE_PATTERN text), rfl, rfl, ?_, ?_, ?_, ?_, ?_, ?_, ?_⟩, ?_⟩
  · exact (nodup_uniqueInOrder _).filter _
  · intro e
    rw [List.mem_filter, mem_uniqueInOrder]
  · exact (pairwise_uniqueInOrder _).sublist (List.filter_sublist _)
  · exact nodup_uniqueInOrder _
  · intro p
    exact mem_uniqueInOrder _ p
  · exact pairwise_uniqueInOrder _
  · intro hlen e he hall
    simp only [extractContactInfo]
    rw [List.take_of_length_le hlen, List.mem_filter, mem_uniqueInOrder]
    exact ⟨he, hall⟩
  · decide

/-- The trusted-platform test of `calculateConfidence`, as a proposition. -/
theorem trusted_iff (source : Str) :
    (includes source "linkedin".toList || includes source "realtor.com".toList ||
        includes source "zillow".toList) = true ↔
      ("linkedin".toList <:+: source ∨ "realtor.com".toList <:+: source ∨
        "zillow".toList <:+: source) := by
  simp only [Bool.or_eq_true, includes_iff, or_assoc]

theorem calculateConfidence_eq (email phone source : Str) :
    calculateConfidence email phone source
      = min ((if email ≠ [] then 50 else 0) + (if phone ≠ [] then 40 else 0) +
          (if "linkedin".toList <:+: source ∨ "realtor.com".toList <:+: source ∨
              "zillow".toList <:+: source then 10 else 0)) 100 := by
  unfold calculateConfidence
  simp only [← trusted_iff]
  cases email <;> cases phone <;>
    cases (includes source "linkedin".toList || includes source "realtor.com".toList ||
      includes source "zillow".toList) <;> simp [truthy]

/-- C3: `calculateConfidence` returns 50 for a non-empty email plus 40 for a
non-empty phone plus 10 for a source containing `linkedin`, `realtor.com` or
`zillow`, capped at 100; the result is at most 100 and is 100 when email and
phone are present and the source is trusted. -/
theorem C3_confidence_formula (email phone source : Str) :
    calculateConfidence email phone source
      = min ((if email ≠ [] then 50 else 0) + (if phone ≠ [] then 40 else 0) +
          (if "linkedin".toList <:+: source ∨ "realtor.com".toList <:+: source ∨
              "zillow".toList <:+: source then 10 else 0)) 100 ∧
    calculateConfidence email phone source ≤ 100 ∧
    (email ≠ [] → phone ≠ [] →
      ("linkedin".toList <:+: source ∨ "realtor.com".toList <:+: source ∨
        "zillow".toList <:+: source) →
      calculateConfidence email phone source = 100) := by
  have hbound : calculateConfidence email phone source ≤ 100 := by
    unfold calculateConfidence
    exact Nat.min_le_right _ _
  have hformula := calculateConfidence_eq email phone source
  refine ⟨hformula, hbound, ?_⟩
  intro he hp ht
  rw [hformula, if_pos he, if_pos hp, if_pos ht]
  rfl

/-! ## The accumulator of `processRealtor` -/

theorem extract_email_ne_nil (text e : Str) (he : e ∈ (extractContactInfo text).emails) :
    e ≠ [] := by
  simp only [extractContactInfo] at he
  have h1 := (List.mem_filter.mp (List.mem_of_mem_take he)).1
  exact email_match_ne_nil text e ((mem_uniqueInOrder _ e).mp h1)

/-- A returned email consists of ASCII characters, on which `toLowerCase` is the
JavaScript method. -/
theorem extract_email_ascii (text e : Str) (he : e ∈ (extractContactInfo text).emails) :
    ∀ c ∈ e, c.toNat < 128 := by
  simp only [extractContactInfo] at he
  have h1 := (List.mem_filter.mp (List.mem_of_mem_take he)).1
  exact (mem_matchAll yields_EMAIL_PATTERN text e ((mem_uniqueInOrder _ e).mp h1)).2

theorem extract_phone_digits (text p : Str) (hp : p ∈ (extractContactInfo text).phones) :
    (p.filter isDigit).length = 10 ∨
      ((p.filter isDigit).length = 11 ∧ (p.filter isDigit).head? = some '1') := by
  simp only [extractContactInfo] at hp
  exact phone_match_digits text p ((mem_uniqueInOrder _ p).mp (List.mem_of_mem_take hp))

theorem length_pos_or_iff (xs ys : List Str) :
    (decide (xs.length > 0) || decide (ys.length > 0)) = true ↔ xs ≠ [] ∨ ys ≠ [] := by
  simp [List.length_pos]

theorem found_iff (all : AllContacts) :
    all.found = true ↔ all.emails ≠ [] ∨ all.phones ≠ [] :=
  length_pos_or_iff _ _

theorem found_eq_false_iff (all : AllContacts) :
    all.found = false ↔ all.emails = [] ∧ all.phones = [] := by
  rw [← Bool.not_eq_true, found_iff]
  tauto

theorem wellFormed_noContacts : noContacts.WellFormed := by
  refine ⟨?_, ?_, ?_, ?_⟩ <;> simp [noContacts]

/-- Pushing the contacts read from a text, with a truthy source. -/
theorem AllContacts.WellFormed.push {all : AllContacts} (h : all.WellFormed) (text : Str) (u : UrlVal)
    (hu : u.truthy = true)
    (hne : (extractContactInfo text).emails ≠ [] ∨ (extractContactInfo text).phones ≠ []) :
    AllContacts.WellFormed
      { emails := all.emails ++ (extractContactInfo text).emails,
        phones := all.phones ++ (extractContactInfo text).phones,
        sources := all.sources ++ [u] } := by
  obtain ⟨h1, h2, h3, _⟩ := h
  refine ⟨?_, ?_, ?_, ?_⟩
  · intro e he
    rcases List.mem_append.mp he with he | he
    · exact h1 e he
    · exact extract_email_ne_nil text e he
  · intro p hp
    rcases List.mem_append.mp hp with hp | hp
    · exact h2 p hp
    · exact extract_phone_digits text p hp
  · intro v hv
    rcases List.mem_append.mp hv with hv | hv
    · exact h3 v hv
    · rw [List.mem_singleton] at hv
      exact hv ▸ hu
  · constructor
    · intro hs
      simp at hs
    · rintro ⟨he, hp⟩
      exfalso
      simp only [List.append_eq_nil] at he hp
      rcases hne with hne | hne
      · exact hne he.2
      · exact hne hp.2

theorem orDefault_truthy (v : UrlVal) (d : Str) (hd : truthy d = true) :
    (v.orDefault d).truthy = true := by
  unfold UrlVal.orDefault
  by_cases hv : v.truthy = true
  · rw [if_pos hv]; exact hv
  · rw [if_neg hv]; exact hd

theorem snippetStep_wellFormed (all : AllContacts) (result : SearchResult)
    (h : all.WellFormed) : (snippetStep all result).WellFormed := by
  unfold snippetStep
  split
  · rename_i hc
    exact h.push _ _ (orDefault_truthy _ _ (by decide)) ((length_pos_or_iff _ _).mp hc)
  · exact h

theorem snippetLoop_wellFormed (results : List SearchResult) (all : AllContacts)
    (h : all.WellFormed) : (snippetLoop results all).WellFormed := by
  induction results generalizing all with
  | nil => exact h
  | cons r rs ih => exact ih _ (snippetStep_wellFormed all r h)

theorem tryScrapeSafe_some {σ : Type} (W : World σ) (url : UrlVal) (s s1 : Sys σ)
    (sc : ContactInfo) (h : tryScrapeSafe W url s = (.normal (some sc), s1)) :
    ∃ env u text, (W.page env u).1 = some text ∧ sc = extractContactInfo text := by
  unfold tryScrapeSafe at h
  split at h
  · cases h
  · cases h
  · rename_i u
    split at h
    · cases h
    · dsimp only at h
      split at h
      · rename_i text htext
        simp only [Prod.mk.injEq, Completion.normal.injEq, Option.some.injEq] at h
        exact ⟨s.env, u, text, htext, h.1.symm⟩
      · simp at h

theorem scrapeLoop_wellFormed {σ : Type} (W : World σ) (results : List SearchResult) :
    ∀ (all : AllContacts) (s : Sys σ) (all1 : AllContacts) (s1 : Sys σ),
      all.WellFormed → scrapeLoop W results all s = (.normal all1, s1) → all1.WellFormed := by
  induction results with
  | nil =>
    intro all s all1 s1 h hrun
    simp only [scrapeLoop, Prod.mk.injEq, Completion.normal.injEq] at hrun
    exact hrun.1 ▸ h
  | cons r rs ih =>
    intro all s all1 s1 h hrun
    rw [scrapeLoop] at hrun
    by_cases hu : r.url.truthy = true
    · simp only [hu, Bool.not_true, Bool.false_eq_true, if_false] at hrun
      rcases hts : tryScrapeSafe W r.url (s.record (.scrape r.url)) with ⟨c, s2⟩
      rw [hts] at hrun
      cases c with
      | thrown => cases hrun
      | normal sc =>
        simp only at hrun
        refine ih _ _ _ _ ?_ hrun
        cases sc with
        | none => exact h
        | some ci =>
          obtain ⟨_, _, text, _, rfl⟩ := tryScrapeSafe_some W _ _ _ _ hts
          simp only
          split
          · rename_i hc
            exact h.push _ _ hu ((length_pos_or_iff _ _).mp hc)
          · exact h
    · simp only [hu, Bool.not_false, if_true] at hrun
      exact ih _ _ _ _ h hrun

theorem queryLoop_wellFormed {σ : Type} (W : World σ) (apiKey : Str) (qs : List Str) :
    ∀ (all : AllContacts) (s : Sys σ) (all1 : AllContacts) (s1 : Sys σ),
      all.WellFormed → queryLoop W apiKey qs all s = (.normal all1, s1) → all1.WellFormed := by
  induction qs with
  | nil =>
    intro all s all1 s1 h hrun
    simp only [queryLoop, Prod.mk.injEq, Completion.normal.injEq] at hrun
    exact hrun.1 ▸ h
  | cons q rest ih =>
    intro all s all1 s1 h hrun
    rw [queryLoop] at hrun
    try dsimp only at hrun
    have hsn := snippetLoop_wellFormed (searchSerpApiEnhanced W q apiKey s).1 all h
    split at hrun
    · simp only [Prod.mk.injEq, Completion.normal.injEq] at hrun
      exact hrun.1 ▸ hsn
    · split at hrun
      · cases hrun
      · rename_i all2 s2 hsc
        have h2 := scrapeLoop_wellFormed W _ _ _ _ _ hsn hsc
        split at hrun
        · simp only [Prod.mk.injEq, Completion.normal.injEq] at hrun
          exact hrun.1 ▸ h2
        · exact ih _ _ _ _ h2 hrun

/-! ## Lemmas on `processRealtor` -/

theorem strOr_nil (a : Str) : strOr a [] = a := by
  cases a <;> simp [strOr, truthy]

theorem strOr_of_ne_nil {a : Str} (b : Str) (h : a ≠ []) : strOr a b = a := by
  cases a with
  | nil => exact absurd rfl h
  | cons c cs => simp [strOr, truthy]

theorem strOr_of_nil (b : Str) : strOr [] b = b := by
  simp [strOr, truthy]

theorem cleanPhoneNumber_eq (p : Str) : cleanPhoneNumber p = p.filter isDigit := by
  cases p <;> simp [cleanPhoneNumber, truthy]

/-- The loop over a list of queries in two parts, when the first part ends
without a contact. -/
theorem queryLoop_append {σ : Type} (W : World σ) (apiKey : Str) (pre post : List Str) :
    ∀ (all : AllContacts) (s : Sys σ) (all1 : AllContacts) (s1 : Sys σ),
      queryLoop W apiKey pre all s = (.normal all1, s1) → all1.found = false →
      queryLoop W apiKey (pre ++ post) all s = queryLoop W apiKey post all1 s1 := by
  induction pre with
  | nil =>
    intro all s all1 s1 h _
    simp only [queryLoop, Prod.mk.injEq, Completion.normal.injEq] at h
    rw [List.nil_append, h.1, h.2]
  | cons q rest ih =>
    intro all s all1 s1 h hnf
    rw [List.cons_append, queryLoop]
    rw [queryLoop] at h
    split at h
    · rename_i hf
      simp only [Prod.mk.injEq, Completion.normal.injEq] at h
      rw [← h.1, hf] at hnf
      cases hnf
    · rename_i hf
      rw [if_neg hf]
      split at h
      · cases h
      · rename_i all2 s2 hsc
        split at h
        · rename_i hf2
          simp only [Prod.mk.injEq, Completion.normal.injEq] at h
          rw [← h.1, hf2] at hnf
          cases hnf
        · rename_i hf2
          rw [if_neg hf2]
          exact ih _ _ _ _ h hnf

theorem processRealtor_snd {σ : Type} (W : World σ) (r : RealtorData) (apiKey : Str)
    (s : Sys σ) :
    (processRealtor W r apiKey s).2
      = (queryLoop W apiKey (queries r.firstName r.lastName r.company) noContacts s).2 := by
  unfold processRealtor
  dsimp only
  rcases queryLoop W apiKey (queries r.firstName r.lastName r.company) noContacts s with ⟨c, s1⟩
  cases c with
  | thrown => rfl
  | normal all =>
    dsimp only
    cases assemble r all <;> rfl

theorem processRealtor_of_thrown {σ : Type} (W : World σ) (r : RealtorData) (apiKey : Str)
    (s s1 : Sys σ)
    (h : queryLoop W apiKey (queries r.firstName r.lastName r.company) noContacts s
      = (.thrown, s1)) :
    (processRealtor W r apiKey s).1 = unchangedRealtor r := by
  unfold processRealtor
  dsimp only
  rw [h]

theorem processRealtor_of_normal {σ : Type} (W : World σ) (r : RealtorData) (apiKey : Str)
    (s s1 : Sys σ) (all : AllContacts)
    (h : queryLoop W apiKey (queries r.firstName r.lastName r.company) noContacts s
      = (.normal all, s1)) :
    (processRealtor W r apiKey s).1
      = match assemble r all with
        | .normal result => result
        | .thrown => unchangedRealtor r := by
  unfold processRealtor
  dsimp only
  rw [h]
  dsimp only
  cases assemble r all <;> rfl

/-- The object built after the loop when the first source is a string. -/
theorem assemble_of_str (r : RealtorData) (all : AllContacts) (v : Str)
    (h : (all.sources.headD .undefined).orDefault [] = .str v) :
    assemble r all = .normal
      { firstName := r.firstName, lastName := r.lastName, company := r.company,
        work_email := strOr (all.emails.headD []) (orDefault r.work_email []),
        mobile_phone := strOr ((all.phones.headD []).filter isDigit)
          (orDefault r.mobile_phone []),
        personal_email := orDefault r.personal_email [],
        title := orDefault r.title [],
        city := orDefault r.city [],
        state := orDefault r.state [],
        trailing_14_units := orDefault r.trailing_14_units [],
        tags := orDefault r.tags [],
        source := v,
        confidence := calculateConfidence (all.emails.headD []) (all.phones.headD []) v } := by
  unfold assemble
  dsimp only
  rw [h]
  simp only [headD_uniqueInOrder, strOr_nil, cleanPhoneNumber_eq]

theorem assemble_normal (r : RealtorData) (all : AllContacts) (res : EnrichedRealtor)
    (h : assemble r all = .normal res) :
    (all.sources.headD .undefined).orDefault [] = .str res.source ∧
    res.work_email = strOr (all.emails.headD []) (orDefault r.work_email []) ∧
    res.mobile_phone = strOr ((all.phones.headD []).filter isDigit)
      (orDefault r.mobile_phone []) ∧
    res.confidence = calculateConfidence (all.emails.headD []) (all.phones.headD [])
      res.source := by
  cases hv : (all.sources.headD .undefined).orDefault [] with
  | str v =>
    rw [assemble_of_str r all v hv] at h
    simp only [Completion.normal.injEq] at h
    subst h
    exact ⟨rfl, rfl, rfl, rfl⟩
  | undefined =>
    unfold assemble at h
    dsimp only at h
    rw [hv] at h
    cases h
  | other =>
    unfold assemble at h
    dsimp only at h
    rw [hv] at h
    cases h

theorem WellFormed_headD_email {all : AllContacts} (h : all.WellFormed) :
    all.emails.headD [] = [] ↔ all.emails = [] := by
  cases he : all.emails with
  | nil => simp
  | cons e es =>
    have := h.1 e (by rw [he]; exact List.mem_cons_self _ _)
    simp [this]

theorem phone_digits_ne_nil {p : Str}
    (h : (p.filter isDigit).length = 10 ∨
      ((p.filter isDigit).length = 11 ∧ (p.filter isDigit).head? = some '1')) :
    p.filter isDigit ≠ [] := by
  intro hnil
  rw [hnil] at h
  simp at h

theorem WellFormed_headD_phone {all : AllContacts} (h : all.WellFormed) :
    all.phones.headD [] = [] ↔ all.phones = [] := by
  cases hp : all.phones with
  | nil => simp
  | cons p ps =>
    have h1 := phone_digits_ne_nil (h.2.1 p (by rw [hp]; exact List.mem_cons_self _ _))
    have : p ≠ [] := by
      intro hnil
      rw [hnil] at h1
      exact h1 rfl
    simp [this]

theorem snippetStep_found_mono (all : AllContacts) (r : SearchResult)
    (h : all.found = true) : (snippetStep all r).found = true := by
  unfold snippetStep
  split
  · rw [found_iff] at h ⊢
    rcases h with h | h
    · left; simp [h]
    · right; simp [h]
  · exact h

theorem snippetStep_found_of_yield (all : AllContacts) (r : SearchResult)
    (h : (snippetContact r).emails ≠ [] ∨ (snippetContact r).phones ≠ []) :
    (snippetStep all r).found = true := by
  unfold snippetStep
  rw [if_pos ((length_pos_or_iff _ _).mpr h), found_iff]
  rcases h with h | h
  · left; simp [h]
  · right; simp [h]

theorem snippetLoop_found_mono (rs : List SearchResult) (all : AllContacts)
    (h : all.found = true) : (snippetLoop rs all).found = true := by
  induction rs generalizing all with
  | nil => exact h
  | cons r rs ih => exact ih _ (snippetStep_found_mono all r h)

theorem snippetLoop_found_of_yield (rs : List SearchResult) (all : AllContacts)
    (h : ∃ r ∈ rs, (snippetContact r).emails ≠ [] ∨ (snippetContact r).phones ≠ []) :
    (snippetLoop rs all).found = true := by
  induction rs generalizing all with
  | nil =>
    obtain ⟨r, hr, _⟩ := h
    cases hr
  | cons x rs ih =>
    obtain ⟨r, hr, hy⟩ := h
    rcases List.mem_cons.mp hr with hr | hr
    · subst hr
      exact snippetLoop_found_mono rs _ (snippetStep_found_of_yield all r hy)
    · exact ih _ ⟨r, hr, hy⟩

theorem searchSerpApiEnhanced_log {σ : Type} (W : World σ) (q apiKey : Str) (s : Sys σ) :
    (searchSerpApiEnhanced W q apiKey s).2.log = s.log ++ [Event.search q apiKey] := by
  unfold searchSerpApiEnhanced
  dsimp only
  split <;> rfl

theorem queryLoop_of_snippet_found {σ : Type} (W : World σ) (apiKey q : Str)
    (rest : List Str) (all : AllContacts) (s : Sys σ)
    (h : (snippetLoop (searchSerpApiEnhanced W q apiKey s).1 all).found = true) :
    queryLoop W apiKey (q :: rest) all s
      = (.normal (snippetLoop (searchSerpApiEnhanced W q apiKey s).1 all),
          (searchSerpApiEnhanced W q apiKey s).2) := by
  rw [queryLoop, if_pos h]

/-- C4: when the variants before `q` ran and found nothing, and the search
results of `q` yield an email or a phone from title and snippet, the run of
`processRealtor` ends with the search request of `q`: no scrape call follows it
and no later variant is searched or scraped. -/
theorem C4_snippet_short_circuit {σ : Type} (W : World σ) (r : RealtorData)
    (apiKey : Str) (s : Sys σ) (pre : List Str) (q : Str) (post : List Str)
    (all1 : AllContacts) (s1 : Sys σ)
    (hq : queries r.firstName r.lastName r.company = pre ++ q :: post)
    (hpre : queryLoop W apiKey pre noContacts s = (.normal all1, s1))
    (hnone : all1.found = false)
    (hyield : ∃ res ∈ (searchSerpApiEnhanced W q apiKey s1).1,
      (snippetContact res).emails ≠ [] ∨ (snippetContact res).phones ≠ []) :
    (processRealtor W r apiKey s).2.log = s1.log ++ [Event.search q apiKey] := by
  rw [processRealtor_snd, hq, queryLoop_append W apiKey pre (q :: post) _ _ _ _ hpre hnone,
    queryLoop_of_snippet_found W apiKey q post all1 s1
      (snippetLoop_found_of_yield _ _ hyield)]
  exact searchSerpApiEnhanced_log W q apiKey s1

/-- C4 at the second variant of the record of Jane Doe, in a world whose first
search fails: after the first search and the pause, the second search request
is the last entry of the log. -/
theorem C4_witness :
    (processRealtor secondTryWorld janeRecord [] { env := 0, log := [] }).2.log
      = [Event.search "Jane Doe Acme Lending email phone contact".toList [],
         Event.sleep 2000,
         Event.search "Jane Doe Acme Lending email cell contact".toList []] :=
  C4_snippet_short_circuit secondTryWorld janeRecord [] { env := 0, log := [] }
    ["Jane Doe Acme Lending email phone contact".toList]
    "Jane Doe Acme Lending email cell contact".toList
    ["Jane Doe Acme Lending mortgage lender contact".toList,
     "Jane Doe mortgage lender Acme Lending".toList,
     "\"Jane Doe\" mortgage lender Acme Lending".toList]
    noContacts
    { env := 1,
      log := [Event.search "Jane Doe Acme Lending email phone contact".toList [],
              Event.sleep 2000] }
    (by decide) rfl (by decide) (by decide)

/-- The two merged fields of the object returned after a run that ended
without an exception. -/
theorem merged_fields (r : RealtorData) (all : AllContacts) (res : EnrichedRealtor)
    (hwf : all.WellFormed) (h : assemble r all = .normal res) :
    res.work_email =
      (match all.emails.head? with
       | some e => e
       | none => orDefault r.work_email []) ∧
    res.mobile_phone =
      (match all.phones.head? with
       | some p => p.filter isDigit
       | none => orDefault r.mobile_phone []) := by
  obtain ⟨_, hw, hm, _⟩ := assemble_normal r all res h
  constructor
  · rw [hw]
    cases he : all.emails with
    | nil => exact strOr_of_nil _
    | cons e es =>
      exact strOr_of_ne_nil _ (hwf.1 e (by rw [he]; exact List.mem_cons_self _ _))
  · rw [hm]
    cases hp : all.phones with
    | nil => exact strOr_of_nil _
    | cons p ps =>
      exact strOr_of_ne_nil _
        (phone_digits_ne_nil (hwf.2.1 p (by rw [hp]; exact List.mem_cons_self _ _)))

/-- C5, as stated, fails: for the record of Jane Doe that already has a work
email and a mobile phone, a search result carrying another email replaces the
work email. -/
theorem C5_counterexample :
    janeOnRecord.work_email = some "jdoe@oldmail.com".toList ∧
    janeOnRecord.mobile_phone = some "5550001111".toList ∧
    (processRealtor janeWorld janeOnRecord [] start).1.work_email
      = "jane.doe@acmelending.com".toList ∧
    (processRealtor janeWorld janeOnRecord [] start).1.work_email
      ≠ "jdoe@oldmail.com".toList := by
  decide

/-- C5, amended: for a record with a non-empty work email `e` and mobile phone
`p`, the returned `work_email` is the first email found when the run found one
and completed without an exception, and `e` otherwise; the returned
`mobile_phone` is the digits of the first phone found when the run found one and
completed without an exception, and `p` otherwise. -/
theorem C5_existing_kept_unless_found {σ : Type} (W : World σ) (r : RealtorData)
    (apiKey : Str) (s : Sys σ) (e p : Str)
    (he : r.work_email = some e) (hne : e ≠ [])
    (hp : r.mobile_phone = some p) (hnp : p ≠ []) :
    (∀ s1, queryLoop W apiKey (queries r.firstName r.lastName r.company) noContacts s
        = (.thrown, s1) →
      (processRealtor W r apiKey s).1.work_email = e ∧
      (processRealtor W r apiKey s).1.mobile_phone = p) ∧
    (∀ all s1, queryLoop W apiKey (queries r.firstName r.lastName r.company) noContacts s
        = (.normal all, s1) →
      (assemble r all = .thrown →
        (processRealtor W r apiKey s).1.work_email = e ∧
        (processRealtor W r apiKey s).1.mobile_phone = p) ∧
      (∀ res, assemble r all = .normal res →
        (processRealtor W r apiKey s).1.work_email =
          (match all.emails.head? with
           | some found => found
           | none => e) ∧
        (processRealtor W r apiKey s).1.mobile_phone =
          (match all.phones.head? with
           | some found => found.filter isDigit
           | none => p))) := by
  have hwe : orDefault r.work_email [] = e := by
    rw [he]; cases e with
    | nil => exact absurd rfl hne
    | cons c cs => simp [orDefault, truthy]
  have hmp : orDefault r.mobile_phone [] = p := by
    rw [hp]; cases p with
    | nil => exact absurd rfl hnp
    | cons c cs => simp [orDefault, truthy]
  have hunch : (unchangedRealtor r).work_email = e ∧ (unchangedRealtor r).mobile_phone = p :=
    ⟨hwe, hmp⟩
  constructor
  · intro s1 hrun
    rw [processRealtor_of_thrown W r apiKey s s1 hrun]
    exact hunch
  · intro all s1 hrun
    have hwf := queryLoop_wellFormed W apiKey _ _ _ _ _ wellFormed_noContacts hrun
    rw [processRealtor_of_normal W r apiKey s s1 all hrun]
    constructor
    · intro hasm
      rw [hasm]
      exact hunch
    · intro res hasm
      rw [hasm]
      dsimp only
      obtain ⟨hw, hm⟩ := merged_fields r all res hwf hasm
      rw [hw, hm, hwe, hmp]
      exact ⟨rfl, rfl⟩

/-- C5, amended, at the record of Jane Doe with contacts on record in a world
that answers nothing: both fields are kept. -/
theorem C5_witness :
    (processRealtor silentWorld janeOnRecord [] start).1.work_email
      = "jdoe@oldmail.com".toList ∧
    (processRealtor silentWorld janeOnRecord [] start).1.mobile_phone
      = "5550001111".toList :=
  ((C5_existing_kept_unless_found silentWorld janeOnRecord [] start
    "jdoe@oldmail.com".toList "5550001111".toList rfl (by decide) rfl (by decide)).2
    noContacts
    (queryLoop silentWorld [] (queries janeOnRecord.firstName janeOnRecord.lastName
      janeOnRecord.company) noContacts start).2 rfl).2
    (unchangedRealtor janeOnRecord) rfl

/-- C6: when `processRealtor` completes without an exception (the loop ends
normally with accumulator `all` and the statements after it return `res`), the
returned `work_email` is the first email found, or the record's own when none was
found, and the returned `mobile_phone` is the digits of the first phone found, or
the record's own when none was found. -/
theorem C6_merge_rule {σ : Type} (W : World σ) (r : RealtorData) (apiKey : Str)
    (s s1 : Sys σ) (all : AllContacts) (res : EnrichedRealtor)
    (hrun : queryLoop W apiKey (queries r.firstName r.lastName r.company) noContacts s
      = (.normal all, s1))
    (hasm : assemble r all = .normal res) :
    (processRealtor W r apiKey s).1 = res ∧
    (processRealtor W r apiKey s).1.work_email =
      (match all.emails.head? with
       | some e => e
       | none => orDefault r.work_email []) ∧
    (processRealtor W r apiKey s).1.mobile_phone =
      (match all.phones.head? with
       | some p => p.filter isDigit
       | none => orDefault r.mobile_phone []) := by
  have hwf := queryLoop_wellFormed W apiKey _ _ _ _ _ wellFormed_noContacts hrun
  have hres : (processRealtor W r apiKey s).1 = res := by
    rw [processRealtor_of_normal W r apiKey s s1 all hrun, hasm]
  rw [hres]
  exact ⟨rfl, merged_fields r all res hwf hasm⟩

/-- C6 at the record of Jane Doe with contacts on record: the email found
replaces the work email, and the mobile phone, none being found, is kept. -/
theorem C6_witness :
    (processRealtor janeWorld janeOnRecord [] start).1.work_email
      = "jane.doe@acmelending.com".toList ∧
    (processRealtor janeWorld janeOnRecord [] start).1.mobile_phone
      = "5550001111".toList :=
  (C6_merge_rule janeWorld janeOnRecord [] start
    (queryLoop janeWorld [] (queries janeOnRecord.firstName janeOnRecord.lastName
      janeOnRecord.company) noContacts start).2
    { emails := ["jane.doe@acmelending.com".toList], phones := [],
      sources := [.str "https://acmelending.com/team".toList] }
    (processRealtor janeWorld janeOnRecord [] start).1 rfl rfl).2

theorem snippetStep_silent (all : AllContacts) (r : SearchResult)
    (h : (snippetContact r).emails = [] ∧ (snippetContact r).phones = []) :
    snippetStep all r = all := by
  unfold snippetStep
  simp [h.1, h.2]

theorem snippetLoop_silent (rs : List SearchResult) (all : AllContacts)
    (h : ∀ x ∈ rs, (snippetContact x).emails = [] ∧ (snippetContact x).phones = []) :
    snippetLoop rs all = all := by
  induction rs generalizing all with
  | nil => rfl
  | cons x rs ih =>
    show snippetLoop rs (snippetStep all x) = all
    rw [snippetStep_silent all x (h x (List.mem_cons_self _ _))]
    exact ih all (fun y hy => h y (List.mem_cons_of_mem _ hy))

theorem mem_searchSerpApiEnhanced {σ : Type} (W : World σ) (q apiKey : Str) (s : Sys σ)
    (res : SearchResult) (h : res ∈ (searchSerpApiEnhanced W q apiKey s).1) :
    ∃ data, (W.serp s.env q apiKey).1 = .response data ∧ res ∈ normalizeSerp data := by
  unfold searchSerpApiEnhanced at h
  dsimp only at h
  split at h
  · rename_i data hdata
    exact ⟨data, hdata, h⟩
  · cases h

theorem scrapeLoop_silent {σ : Type} (W : World σ)
    (hpage : ∀ env u text, (W.page env u).1 = some text →
      (extractContactInfo text).emails = [] ∧ (extractContactInfo text).phones = [])
    (results : List SearchResult) :
    ∀ (all : AllContacts) (s : Sys σ) (all1 : AllContacts) (s1 : Sys σ),
      scrapeLoop W results all s = (.normal all1, s1) → all1 = all := by
  induction results with
  | nil =>
    intro all s all1 s1 hrun
    simp only [scrapeLoop, Prod.mk.injEq, Completion.normal.injEq] at hrun
    exact hrun.1.symm
  | cons r rs ih =>
    intro all s all1 s1 hrun
    rw [scrapeLoop] at hrun
    by_cases hu : r.url.truthy = true
    · simp only [hu, Bool.not_true, Bool.false_eq_true, if_false] at hrun
      rcases hts : tryScrapeSafe W r.url (s.record (.scrape r.url)) with ⟨c, s2⟩
      rw [hts] at hrun
      cases c with
      | thrown => cases hrun
      | normal sc =>
        dsimp only at hrun
        cases sc with
        | none => exact ih _ _ _ _ hrun
        | some ci =>
          obtain ⟨env, u, text, htext, rfl⟩ := tryScrapeSafe_some W _ _ _ _ hts
          obtain ⟨h1, h2⟩ := hpage env u text htext
          dsimp only at hrun
          rw [h1, h2] at hrun
          exact ih _ _ _ _ hrun
    · simp only [hu, Bool.not_false, if_true] at hrun
      exact ih _ _ _ _ hrun

theorem queryLoop_silent {σ : Type} (W : World σ) (apiKey : Str)
    (hserp : ∀ env q k data, (W.serp env q k).1 = .response data →
      ∀ res ∈ normalizeSerp data,
        (snippetContact res).emails = [] ∧ (snippetContact res).phones = [])
    (hpage : ∀ env u text, (W.page env u).1 = some text →
      (extractContactInfo text).emails = [] ∧ (extractContactInfo text).phones = [])
    (qs : List Str) :
    ∀ (all : AllContacts) (s : Sys σ) (all1 : AllContacts) (s1 : Sys σ),
      queryLoop W apiKey qs all s = (.normal all1, s1) → all1 = all := by
  induction qs with
  | nil =>
    intro all s all1 s1 hrun
    simp only [queryLoop, Prod.mk.injEq, Completion.normal.injEq] at hrun
    exact hrun.1.symm
  | cons q rest ih =>
    intro all s all1 s1 hrun
    rw [queryLoop] at hrun
    have hsn : snippetLoop (searchSerpApiEnhanced W q apiKey s).1 all = all := by
      apply snippetLoop_silent
      intro x hx
      obtain ⟨data, hdata, hmem⟩ := mem_searchSerpApiEnhanced W q apiKey s x hx
      exact hserp _ _ _ data hdata x hmem
    rw [hsn] at hrun
    split at hrun
    · simp only [Prod.mk.injEq, Completion.normal.injEq] at hrun
      exact hrun.1.symm
    · split at hrun
      · cases hrun
      · rename_i all2 s2 hsc
        have h2 := scrapeLoop_silent W hpage _ _ _ _ _ hsc
        subst h2
        split at hrun
        · simp only [Prod.mk.injEq, Completion.normal.injEq] at hrun
          exact hrun.1.symm
        · exact ih _ _ _ _ hrun

theorem assemble_noContacts (r : RealtorData) :
    assemble r noContacts = .normal (unchangedRealtor r) := by
  rw [assemble_of_str r noContacts [] rfl]
  rfl

/-- C7: when no search result and no scraped page yields an email or a phone,
`processRealtor` returns the record's own `work_email` and `mobile_phone` (the
empty string when missing), confidence 0 and source `""`; and whenever the loop
ends with no email and no phone chosen, the returned confidence is 0. -/
theorem C7_nothing_found {σ : Type} (W : World σ) (r : RealtorData) (apiKey : Str)
    (s : Sys σ) :
    ((∀ env q k data, (W.serp env q k).1 = .response data →
        ∀ res ∈ normalizeSerp data,
          (snippetContact res).emails = [] ∧ (snippetContact res).phones = []) →
      (∀ env u text, (W.page env u).1 = some text →
        (extractContactInfo text).emails = [] ∧ (extractContactInfo text).phones = []) →
      (processRealtor W r apiKey s).1.work_email = orDefault r.work_email [] ∧
      (processRealtor W r apiKey s).1.mobile_phone = orDefault r.mobile_phone [] ∧
      (processRealtor W r apiKey s).1.confidence = 0 ∧
      (processRealtor W r apiKey s).1.source = []) ∧
    (∀ all s1, queryLoop W apiKey (queries r.firstName r.lastName r.company) noContacts s
        = (.normal all, s1) →
      all.emails.headD [] = [] → all.phones.headD [] = [] →
      (processRealtor W r apiKey s).1.confidence = 0) := by
  constructor
  · intro hserp hpage
    have hout : (processRealtor W r apiKey s).1 = unchangedRealtor r := by
      rcases hrun : queryLoop W apiKey (queries r.firstName r.lastName r.company)
        noContacts s with ⟨c, s1⟩
      cases c with
      | thrown => exact processRealtor_of_thrown W r apiKey s s1 hrun
      | normal all =>
        have hall := queryLoop_silent W apiKey hserp hpage _ _ _ _ _ hrun
        subst hall
        rw [processRealtor_of_normal W r apiKey s s1 noContacts hrun, assemble_noContacts]
    rw [hout]
    exact ⟨rfl, rfl, rfl, rfl⟩
  · intro all s1 hrun he hp
    have hwf := queryLoop_wellFormed W apiKey _ _ _ _ _ wellFormed_noContacts hrun
    rw [processRealtor_of_normal W r apiKey s s1 all hrun]
    cases hasm : assemble r all with
    | thrown => rfl
    | normal res =>
      dsimp only
      obtain ⟨hsrc, _, _, hconf⟩ := assemble_normal r all res hasm
      have hs : all.sources = [] :=
        hwf.2.2.2.mpr ⟨(WellFormed_headD_email hwf).mp he, (WellFormed_headD_phone hwf).mp hp⟩
      rw [hs] at hsrc
      have hsource : res.source = [] := by
        have : UrlVal.str [] = UrlVal.str res.source := hsrc
        simp only [UrlVal.str.injEq] at this
        exact this.symm
      rw [hconf, he, hp, hsource]
      rfl

/-- C7 in a world that answers nothing, for the record of Jane Doe with contacts
on record and for the bare one. -/
theorem C7_witness :
    ((processRealtor silentWorld janeOnRecord [] start).1.work_email
        = "jdoe@oldmail.com".toList ∧
      (processRealtor silentWorld janeOnRecord [] start).1.mobile_phone
        = "5550001111".toList ∧
      (processRealtor silentWorld janeOnRecord [] start).1.confidence = 0 ∧
      (processRealtor silentWorld janeOnRecord [] start).1.source = []) ∧
    (processRealtor silentWorld janeRecord [] start).1.confidence = 0 :=
  ⟨(C7_nothing_found silentWorld janeOnRecord [] start).1
      (fun _ _ _ _ h => by cases h) (fun _ _ _ h => by cases h),
   (C7_nothing_found silentWorld janeRecord [] start).2 noContacts
      (queryLoop silentWorld [] (queries janeRecord.firstName janeRecord.lastName
        janeRecord.company) noContacts start).2 rfl rfl rfl⟩

theorem snippetLoop_append (xs ys : List SearchResult) (all : AllContacts) :
    snippetLoop (xs ++ ys) all = snippetLoop ys (snippetLoop xs all) := by
  simp [snippetLoop, List.foldl_append]

/-- Results without a phone only extend the emails and the sources. -/
theorem snippetLoop_extends (rs : List SearchResult) :
    ∀ all : AllContacts, (∀ x ∈ rs, (snippetContact x).phones = []) →
      ∃ es ss, snippetLoop rs all
        = { emails := all.emails ++ es, phones := all.phones, sources := all.sources ++ ss } := by
  induction rs with
  | nil =>
    intro all _
    exact ⟨[], [], by simp [snippetLoop]⟩
  | cons x rs ih =>
    intro all h
    obtain ⟨es, ss, hrest⟩ := ih (snippetStep all x) (fun y hy => h y (List.mem_cons_of_mem _ hy))
    have hx := h x (List.mem_cons_self _ _)
    show ∃ es ss, snippetLoop rs (snippetStep all x) = _
    rw [hrest]
    unfold snippetStep
    split
    · exact ⟨(snippetContact x).emails ++ es,
        [x.url.orDefault "search_snippet".toList] ++ ss, by simp [hx]⟩
    · exact ⟨es, ss, rfl⟩

/-- C8: when the results of the first variant `q` yield no phone, the first
result that yields an email yields `e` first, and the URL of that result is
missing or a string that contains none of `linkedin`, `realtor.com`, `zillow`,
then `processRealtor` returns `work_email = e` and confidence 50, and the search
request of `q` is the only request of the run, so no scrape call is made. -/
theorem C8_email_only_confidence {σ : Type} (W : World σ) (r : RealtorData)
    (apiKey : Str) (s : Sys σ) (q : Str) (rest : List Str) (e : Str)
    (pre : List SearchResult) (r0 : SearchResult) (post : List SearchResult)
    (hq : queries r.firstName r.lastName r.company = q :: rest)
    (hres : (searchSerpApiEnhanced W q apiKey s).1 = pre ++ r0 :: post)
    (hpre : ∀ x ∈ pre, (snippetContact x).emails = [])
    (hr0 : (snippetContact r0).emails.head? = some e)
    (hnoph : ∀ x ∈ pre ++ r0 :: post, (snippetContact x).phones = [])
    (hurl : r0.url = .undefined ∨ ∃ u, r0.url = .str u ∧
      ¬ ("linkedin".toList <:+: u ∨ "realtor.com".toList <:+: u ∨ "zillow".toList <:+: u)) :
    (processRealtor W r apiKey s).1.work_email = e ∧
    (processRealtor W r apiKey s).1.confidence = 50 ∧
    (processRealtor W r apiKey s).2.log = s.log ++ [Event.search q apiKey] := by
  -- the source recorded for `r0`
  have hsrc : ∃ v, r0.url.orDefault "search_snippet".toList = .str v ∧ truthy v = true ∧
      ¬ ("linkedin".toList <:+: v ∨ "realtor.com".toList <:+: v ∨ "zillow".toList <:+: v) := by
    rcases hurl with hu | ⟨u, hu, hnt⟩
    · rw [hu]
      refine ⟨"search_snippet".toList, rfl, rfl, ?_⟩
      rw [← trusted_iff]
      decide
    · rw [hu]
      by_cases ht : truthy u = true
      · exact ⟨u, by simp [UrlVal.orDefault, UrlVal.truthy, ht], ht, hnt⟩
      · refine ⟨"search_snippet".toList, by simp [UrlVal.orDefault, UrlVal.truthy, ht], rfl, ?_⟩
        rw [← trusted_iff]
        decide
  obtain ⟨v, hv, hvt, hvn⟩ := hsrc
  -- the emails of `r0`
  obtain ⟨es0, hes0⟩ : ∃ es0, (snippetContact r0).emails = e :: es0 := by
    cases hE : (snippetContact r0).emails with
    | nil => rw [hE] at hr0; cases hr0
    | cons a as =>
      rw [hE] at hr0
      simp only [List.head?_cons, Option.some.injEq] at hr0
      exact ⟨as, by rw [hr0]⟩
  have hene : e ≠ [] :=
    extract_email_ne_nil _ e (by
      have : e ∈ (snippetContact r0).emails := by rw [hes0]; exact List.mem_cons_self _ _
      exact this)
  have hph0 : (snippetContact r0).phones = [] :=
    hnoph r0 (List.mem_append_right _ (List.mem_cons_self _ _))
  -- the accumulator after the snippets
  have hpre0 : snippetLoop pre noContacts = noContacts :=
    snippetLoop_silent pre noContacts
      (fun x hx => ⟨hpre x hx, hnoph x (List.mem_append_left _ hx)⟩)
  have hstep : snippetStep noContacts r0
      = { emails := e :: es0, phones := [], sources := [.str v] } := by
    unfold snippetStep
    rw [if_pos ((length_pos_or_iff _ _).mpr (Or.inl (by rw [hes0]; exact List.cons_ne_nil _ _)))]
    rw [hv, hes0, hph0]
    rfl
  obtain ⟨es, ss, hpost⟩ := snippetLoop_extends post (snippetStep noContacts r0)
    (fun x hx => hnoph x (List.mem_append_right _ (List.mem_cons_of_mem _ hx)))
  have hall : snippetLoop (searchSerpApiEnhanced W q apiKey s).1 noContacts
      = { emails := e :: (es0 ++ es), phones := [], sources := .str v :: ss } := by
    rw [hres, snippetLoop_append, hpre0]
    show snippetLoop post (snippetStep noContacts r0) = _
    rw [hpost, hstep]
    simp
  have hfound : (snippetLoop (searchSerpApiEnhanced W q apiKey s).1 noContacts).found = true := by
    rw [hall, found_iff]
    exact Or.inl (List.cons_ne_nil _ _)
  have hrun := queryLoop_of_snippet_found W apiKey q rest noContacts s hfound
  rw [← hq, hall] at hrun
  have hstr : (((⟨e :: (es0 ++ es), [], .str v :: ss⟩ : AllContacts).sources.headD
      .undefined).orDefault []) = .str v := by
    simp [UrlVal.orDefault, UrlVal.truthy, hvt]
  have hasm := assemble_of_str r _ v hstr
  refine ⟨?_, ?_, ?_⟩
  · rw [processRealtor_of_normal W r apiKey s _ _ hrun, hasm]
    exact strOr_of_ne_nil _ hene
  · rw [processRealtor_of_normal W r apiKey s _ _ hrun, hasm]
    show calculateConfidence e [] v = 50
    rw [calculateConfidence_eq, if_pos hene, if_neg hvn]
    rfl
  · rw [processRealtor_snd, hrun]
    exact searchSerpApiEnhanced_log W q apiKey s

/-- C8 at the record `{first: "Jane", last: "Doe", company: "Acme Lending"}` with
one organic result whose snippet is
`"Jane Doe Acme Lending jane.doe@acmelending.com"`. -/
theorem C8_witness :
    (processRealtor janeWorld janeRecord [] start).1.work_email
      = "jane.doe@acmelending.com".toList ∧
    (processRealtor janeWorld janeRecord [] start).1.confidence = 50 ∧
    (processRealtor janeWorld janeRecord [] start).2.log
      = [Event.search "Jane Doe Acme Lending email phone contact".toList []] :=
  C8_email_only_confidence janeWorld janeRecord [] start
    "Jane Doe Acme Lending email phone contact".toList
    ["Jane Doe Acme Lending email cell contact".toList,
     "Jane Doe Acme Lending mortgage lender contact".toList,
     "Jane Doe mortgage lender Acme Lending".toList,
     "\"Jane Doe\" mortgage lender Acme Lending".toList]
    "jane.doe@acmelending.com".toList
    []
    { url := .str "https://acmelending.com/team".toList, title := "Our team".toList,
      snippet := "Jane Doe Acme Lending jane.doe@acmelending.com".toList, type := .organic }
    []
    (by decide) (by decide) (fun _ h => by cases h) (by decide) (by decide)
    (Or.inr ⟨"https://acmelending.com/team".toList, rfl,
      fun h => absurd ((trusted_iff _).mpr h) (by decide)⟩)

/-! ## `checkDNCStatus` -/

theorem truthy_iff (a : Str) : truthy a = true ↔ a ≠ [] := by
  cases a <;> simp [truthy]

/-- C9: when the digits of the phone are not exactly 10, or no token is
configured, `checkDNCStatus` returns `isDNC = false` with a non-empty error and
leaves the world and the log as they were: no request is sent to the registry. -/
theorem C9_no_lookup {σ : Type} (W : World σ) (token phone : Str) (s : Sys σ)
    (h : (phone.filter isDigit).length ≠ 10 ∨ token = []) :
    (checkDNCStatus W token phone s).1.isDNC = false ∧
    (∃ msg, (checkDNCStatus W token phone s).1.error = some msg ∧ msg ≠ []) ∧
    (checkDNCStatus W token phone s).2 = s := by
  unfold checkDNCStatus
  by_cases h1 : (!truthy phone || !truthy token) = true
  · rw [if_pos h1]
    exact ⟨rfl, ⟨_, rfl, by decide⟩, rfl⟩
  · rw [if_neg h1]
    have hlen : (cleanPhoneNumber phone).length ≠ 10 := by
      rw [cleanPhoneNumber_eq]
      rcases h with h | h
      · exact h
      · exfalso
        apply h1
        rw [h]
        simp [truthy]
    dsimp only
    rw [if_pos hlen]
    exact ⟨rfl, ⟨_, rfl, by decide⟩, rfl⟩

/-- C9 at the seven-digit phone `555-1234` with the token of `server.js`, and at
a ten-digit phone without a token. -/
theorem C9_witness :
    ((checkDNCStatus janeWorld RPV_API_TOKEN "555-1234".toList start).1.isDNC = false ∧
      (∃ msg, (checkDNCStatus janeWorld RPV_API_TOKEN "555-1234".toList start).1.error
        = some msg ∧ msg ≠ []) ∧
      (checkDNCStatus janeWorld RPV_API_TOKEN "555-1234".toList start).2 = start) ∧
    ((checkDNCStatus janeWorld [] "5550001111".toList start).1.isDNC = false ∧
      (∃ msg, (checkDNCStatus janeWorld [] "5550001111".toList start).1.error
        = some msg ∧ msg ≠ []) ∧
      (checkDNCStatus janeWorld [] "5550001111".toList start).2 = start) :=
  ⟨C9_no_lookup janeWorld RPV_API_TOKEN "555-1234".toList start (Or.inl (by decide)),
   C9_no_lookup janeWorld [] "5550001111".toList start (Or.inr rfl)⟩

/-- With a ten-digit phone and a token, `checkDNCStatus` sends one request and
interprets the answer. -/
theorem checkDNCStatus_eq {σ : Type} (W : World σ) (token phone : Str) (s : Sys σ)
    (hphone : (phone.filter isDigit).length = 10) (htoken : token ≠ []) :
    checkDNCStatus W token phone s =
      ((match (W.registry s.env (phone.filter isDigit) token).1 with
        | .response data => interpretDnc data
        | .failure message => { isDNC := false, error := some message }),
       { env := (W.registry s.env (phone.filter isDigit) token).2,
         log := s.log ++ [Event.registry (phone.filter isDigit) token] }) := by
  have hp : truthy phone = true := by
    rw [truthy_iff]
    intro hnil
    rw [hnil] at hphone
    simp at hphone
  have ht : truthy token = true := (truthy_iff token).mpr htoken
  unfold checkDNCStatus
  simp only [hp, ht, Bool.not_true, Bool.or_self, Bool.false_eq_true, if_false,
    cleanPhoneNumber_eq, hphone, ne_eq, not_true_eq_false]
  split <;> rfl

theorem interpretDnc_isDNC (data : DncData) :
    (interpretDnc data).isDNC = true ↔
      data.RESPONSECODE = some "OK".toList ∧ data.national_dnc = some "Y".toList := by
  unfold interpretDnc
  by_cases h1 : data.RESPONSECODE = some "-1".toList
  · rw [if_pos h1]
    refine iff_of_false (fun h => by cases h) ?_
    rintro ⟨h, _⟩
    rw [h1] at h
    exact absurd h (by decide)
  · rw [if_neg h1]
    by_cases h2 : data.RESPONSECODE = some "OK".toList
    · rw [if_pos h2]
      by_cases h3 : data.national_dnc = some "Y".toList
      · rw [if_pos h3]
        exact iff_of_true rfl ⟨h2, h3⟩
      · rw [if_neg h3]
        by_cases h4 : data.national_dnc = some "N".toList
        · rw [if_pos h4]
          exact iff_of_false (fun h => by cases h) (fun h => h3 h.2)
        · rw [if_neg h4]
          exact iff_of_false (fun h => by cases h) (fun h => h3 h.2)
    · rw [if_neg h2]
      exact iff_of_false (fun h => by cases h) (fun h => h2 h.1)

theorem interpretDnc_error (data : DncData) :
    (interpretDnc data).error = none ↔
      data.RESPONSECODE = some "OK".toList ∧
        (data.national_dnc = some "Y".toList ∨ data.national_dnc = some "N".toList) := by
  unfold interpretDnc
  by_cases h1 : data.RESPONSECODE = some "-1".toList
  · rw [if_pos h1]
    refine iff_of_false (fun h => by cases h) ?_
    rintro ⟨h, _⟩
    rw [h1] at h
    exact absurd h (by decide)
  · rw [if_neg h1]
    by_cases h2 : data.RESPONSECODE = some "OK".toList
    · rw [if_pos h2]
      by_cases h3 : data.national_dnc = some "Y".toList
      · rw [if_pos h3]
        exact iff_of_true rfl ⟨h2, Or.inl h3⟩
      · rw [if_neg h3]
        by_cases h4 : data.national_dnc = some "N".toList
        · rw [if_pos h4]
          exact iff_of_true rfl ⟨h2, Or.inr h4⟩
        · rw [if_neg h4]
          exact iff_of_false (fun h => by cases h) (fun h => h.2.elim h3 h4)
    · rw [if_neg h2]
      exact iff_of_false (fun h => by cases h) (fun h => h2 h.1)

theorem interpretDnc_flags (data : DncData) (h : (interpretDnc data).error = none) :
    ((interpretDnc data).stateDNC = some true ↔ data.state_dnc = some "Y".toList) ∧
    ((interpretDnc data).isCell = some true ↔ data.iscell = some "Y".toList) ∧
    ((interpretDnc data).isLitigator = some true ↔ data.litigator = some "Y".toList) ∧
    (interpretDnc data).stateDNC ≠ none ∧ (interpretDnc data).isCell ≠ none ∧
    (interpretDnc data).isLitigator ≠ none := by
  have hcase := (interpretDnc_error data).mp h
  have h1 : data.RESPONSECODE ≠ some "-1".toList := by
    rw [hcase.1]; decide
  unfold interpretDnc
  rw [if_neg h1, if_pos hcase.1]
  by_cases h3 : data.national_dnc = some "Y".toList
  · rw [if_pos h3]; simp
  · rw [if_neg h3]
    have h4 : data.national_dnc = some "N".toList := hcase.2.resolve_left h3
    rw [if_pos h4]; simp

/-- C10: for a phone with exactly 10 digits and a configured token, whatever the
registry answers, `checkDNCStatus` returns a result after one request; `isDNC` is
true exactly when the answer is a body with `RESPONSECODE` `OK` and
`national_dnc` `Y`; there is no error exactly when the answer is a body with
`RESPONSECODE` `OK` and `national_dnc` `Y` or `N`, and then `stateDNC`, `isCell`,
`isLitigator` are true exactly when `state_dnc`, `iscell`, `litigator` are `Y`;
every other answer gives `isDNC = false` with an error, so `isDNC = true` never
comes with an error. -/
theorem C10_registry_outcomes {σ : Type} (W : World σ) (token phone : Str) (s : Sys σ)
    (hphone : (phone.filter isDigit).length = 10) (htoken : token ≠ []) :
    (checkDNCStatus W token phone s).2.log
      = s.log ++ [Event.registry (phone.filter isDigit) token] ∧
    ((checkDNCStatus W token phone s).1.isDNC = true ↔
      ∃ data, (W.registry s.env (phone.filter isDigit) token).1 = .response data ∧
        data.RESPONSECODE = some "OK".toList ∧ data.national_dnc = some "Y".toList) ∧
    ((checkDNCStatus W token phone s).1.error = none ↔
      ∃ data, (W.registry s.env (phone.filter isDigit) token).1 = .response data ∧
        data.RESPONSECODE = some "OK".toList ∧
        (data.national_dnc = some "Y".toList ∨ data.national_dnc = some "N".toList)) ∧
    (∀ data, (W.registry s.env (phone.filter isDigit) token).1 = .response data →
      (checkDNCStatus W token phone s).1.error = none →
      ((checkDNCStatus W token phone s).1.stateDNC = some true ↔
        data.state_dnc = some "Y".toList) ∧
      ((checkDNCStatus W token phone s).1.isCell = some true ↔
        data.iscell = some "Y".toList) ∧
      ((checkDNCStatus W token phone s).1.isLitigator = some true ↔
        data.litigator = some "Y".toList)) ∧
    (∀ message, (W.registry s.env (phone.filter isDigit) token).1 = .failure message →
      (checkDNCStatus W token phone s).1.isDNC = false ∧
      (checkDNCStatus W token phone s).1.error = some message) ∧
    ((checkDNCStatus W token phone s).1.error ≠ none →
      (checkDNCStatus W token phone s).1.isDNC = false) := by
  rw [checkDNCStatus_eq W token phone s hphone htoken]
  dsimp only
  cases hout : (W.registry s.env (phone.filter isDigit) token).1 with
  | failure message =>
    dsimp only
    refine ⟨rfl, ?_, ?_, ?_, ?_, ?_⟩
    · constructor
      · intro h; cases h
      · rintro ⟨data, h, _⟩; cases h
    · constructor
      · intro h; cases h
      · rintro ⟨data, h, _⟩; cases h
    · intro data h; cases h
    · intro m hm
      cases hm
      exact ⟨rfl, rfl⟩
    · intro _; rfl
  | response data =>
    dsimp only
    refine ⟨rfl, ?_, ?_, ?_, ?_, ?_⟩
    · rw [interpretDnc_isDNC]
      constructor
      · intro h; exact ⟨data, rfl, h⟩
      · rintro ⟨d, hd, h⟩
        cases hd
        exact h
    · rw [interpretDnc_error]
      constructor
      · intro h; exact ⟨data, rfl, h⟩
      · rintro ⟨d, hd, h⟩
        cases hd
        exact h
    · intro d hd herr
      cases hd
      obtain ⟨f1, f2, f3, _⟩ := interpretDnc_flags data herr
      exact ⟨f1, f2, f3⟩
    · intro m hm; cases hm
    · intro herr
      cases hd : (interpretDnc data).isDNC with
      | false => rfl
      | true =>
        exfalso
        have h1 := (interpretDnc_isDNC data).mp hd
        exact herr ((interpretDnc_error data).mpr ⟨h1.1, Or.inl h1.2⟩)

/-- C10 at the phone `(555) 000-1111` with a registry that answers
`{RESPONSECODE: "OK", national_dnc: "Y", state_dnc: "N", iscell: "Y"}`: one
request with the ten digits, and the number is on the list, without an error. -/
theorem C10_witness :
    (checkDNCStatus listedWorld RPV_API_TOKEN "(555) 000-1111".toList start).2.log
      = [Event.registry "5550001111".toList RPV_API_TOKEN] ∧
    (checkDNCStatus listedWorld RPV_API_TOKEN "(555) 000-1111".toList start).1.isDNC = true ∧
    (checkDNCStatus listedWorld RPV_API_TOKEN "(555) 000-1111".toList start).1.error = none :=
  have h := C10_registry_outcomes listedWorld RPV_API_TOKEN "(555) 000-1111".toList start
    (by decide) (by decide)
  ⟨h.1, h.2.1.mpr ⟨listedAnswer, rfl, rfl, rfl⟩,
    h.2.2.1.mpr ⟨listedAnswer, rfl, rfl, Or.inl rfl⟩⟩

/-! ## The DNC pass -/

theorem orDefault_nil (x : Field) : orDefault x [] = x.getD [] := by
  cases x with
  | none => rfl
  | some a => cases a <;> simp [orDefault, truthy]

theorem interpretDnc_isDNC_no_error (data : DncData)
    (h : (interpretDnc data).isDNC = true) : (interpretDnc data).error = none := by
  have h1 := (interpretDnc_isDNC data).mp h
  exact (interpretDnc_error data).mpr ⟨h1.1, Or.inl h1.2⟩

/-- A positive answer of `checkDNCStatus` carries no error. -/
theorem checkDNCStatus_isDNC_no_error {σ : Type} (W : World σ) (token phone : Str)
    (s : Sys σ) (h : (checkDNCStatus W token phone s).1.isDNC = true) :
    (checkDNCStatus W token phone s).1.error = none := by
  unfold checkDNCStatus at h ⊢
  split
  · rename_i h1
    rw [if_pos h1] at h
    cases h
  · rename_i h1
    rw [if_neg h1] at h
    dsimp only at h ⊢
    split
    · rename_i h2
      rw [if_pos h2] at h
      cases h
    · rename_i h2
      rw [if_neg h2] at h
      cases hout : (W.registry s.env (cleanPhoneNumber phone) token).1 with
      | failure m =>
        rw [hout] at h
        cases h
      | response data =>
        rw [hout] at h
        exact interpretDnc_isDNC_no_error data h

/-- The response of the pass for a record with a phone, by the outcome of the
lookup. -/
theorem dncPass_of_phone {σ : Type} (W : World σ) (token : Str) (realtors : List Realtor)
    (index : Nat) (s : Sys σ) (rec : Realtor) (hget : realtors.get? index = some rec)
    (hphone : rec.mobile_phone.getD [] ≠ []) :
    dncPass W token realtors index s =
      (if (checkDNCStatus W token (rec.mobile_phone.getD []) s).1.error.getD [] ≠ [] then
        { realtor := rec,
          logMessage := interpolate rec.firstName ++ " ".toList ++ interpolate rec.lastName ++
            ": DNC check failed - ".toList ++
            (checkDNCStatus W token (rec.mobile_phone.getD []) s).1.error.getD [],
          logType := .warning, index := index, realtors := realtors }
      else if (checkDNCStatus W token (rec.mobile_phone.getD []) s).1.isDNC = true then
        { realtor := { rec with
            tags := some (if rec.tags.getD [] = [] then "dnc".toList
                          else rec.tags.getD [] ++ ",dnc".toList) },
          logMessage := interpolate rec.firstName ++ " ".toList ++ interpolate rec.lastName ++
            ": On DNC list".toList,
          logType := .error, index := index, realtors := realtors }
      else
        { realtor := rec,
          logMessage := interpolate rec.firstName ++ " ".toList ++ interpolate rec.lastName ++
            ": Clear - not on DNC".toList,
          logType := .success, index := index, realtors := realtors },
       (checkDNCStatus W token (rec.mobile_phone.getD []) s).2) := by
  unfold dncPass
  simp only [hget, Option.getD_some, orDefault_nil]
  rw [if_pos ((truthy_iff _).mpr hphone)]
  by_cases herr : (checkDNCStatus W token (rec.mobile_phone.getD []) s).1.error.getD [] = []
  · have ht : ¬ truthy ((checkDNCStatus W token (rec.mobile_phone.getD []) s).1.error.getD [])
        = true := by
      rw [truthy_iff]; exact fun h => h herr
    have hne : ¬ ((checkDNCStatus W token (rec.mobile_phone.getD []) s).1.error.getD [] ≠ []) :=
      fun h => h herr
    rw [if_neg ht, if_neg hne]
    by_cases hd : (checkDNCStatus W token (rec.mobile_phone.getD []) s).1.isDNC = true
    · rw [if_pos hd, if_pos hd]
      by_cases htag : rec.tags.getD [] = []
      · have htt : ¬ truthy (rec.tags.getD []) = true := by
          rw [truthy_iff]; exact fun h => h htag
        rw [if_neg htt, if_pos htag]
      · rw [if_pos ((truthy_iff _).mpr htag), if_neg htag]
    · rw [if_neg hd, if_neg hd]
  · rw [if_pos ((truthy_iff _).mpr herr), if_pos herr]

theorem dncPass_of_no_phone {σ : Type} (W : World σ) (token : Str) (realtors : List Realtor)
    (index : Nat) (s : Sys σ) (rec : Realtor) (hget : realtors.get? index = some rec)
    (hphone : rec.mobile_phone.getD [] = []) :
    dncPass W token realtors index s =
      ({ realtor := rec, logMessage := [], logType := .info, index := index,
         realtors := realtors }, s) := by
  unfold dncPass
  simp only [hget, Option.getD_some, orDefault_nil]
  have ht : ¬ truthy (rec.mobile_phone.getD []) = true := by
    rw [truthy_iff]; exact fun h => h hphone
  rw [if_neg ht]

/-- C11: for a record with a non-empty phone whose lookup is positive without
an error, the pass returns the record with tags equal to the existing tags
followed by `,dnc`, or to `dnc` when the tags are missing or empty; the existing
tags are a prefix of the new ones. -/
theorem C11_dnc_tag_appended {σ : Type} (W : World σ) (token : Str)
    (realtors : List Realtor) (index : Nat) (s : Sys σ) (rec : Realtor)
    (hget : realtors.get? index = some rec)
    (hphone : rec.mobile_phone.getD [] ≠ [])
    (hpos : (checkDNCStatus W token (rec.mobile_phone.getD []) s).1.isDNC = true)
    (herr : (checkDNCStatus W token (rec.mobile_phone.getD []) s).1.error = none) :
    (dncPass W token realtors index s).1.realtor.tags
      = some (if rec.tags.getD [] = [] then "dnc".toList
              else rec.tags.getD [] ++ ",dnc".toList) ∧
    rec.tags.getD [] <+: (dncPass W token realtors index s).1.realtor.tags.getD [] := by
  rw [dncPass_of_phone W token realtors index s rec hget hphone, herr]
  rw [if_neg (by simp), if_pos hpos]
  refine ⟨rfl, ?_⟩
  dsimp only
  by_cases htag : rec.tags.getD [] = []
  · rw [if_pos htag, htag]
    exact List.nil_prefix
  · rw [if_neg htag]
    exact List.prefix_append _ _

/-- C11 at the record tagged `"TX Mortgage Lender"` with the registry answer
`{RESPONSECODE: "OK", national_dnc: "Y", state_dnc: "N", iscell: "Y"}`. -/
theorem C11_witness :
    (dncPass listedWorld RPV_API_TOKEN [txRecord] 0 start).1.realtor.tags
      = some "TX Mortgage Lender,dnc".toList :=
  (C11_dnc_tag_appended listedWorld RPV_API_TOKEN [txRecord] 0 start txRecord rfl
    (by decide) (by decide) (by decide)).1

/-- A lookup that ends in an error with a non-empty text gives a warning whose
message ends with that text, and leaves the record as it is. -/
theorem dncPass_of_error_text {σ : Type} (W : World σ) (token : Str)
    (realtors : List Realtor) (index : Nat) (s : Sys σ) (rec : Realtor)
    (hget : realtors.get? index = some rec)
    (hphone : rec.mobile_phone.getD [] ≠ [])
    (herr : (checkDNCStatus W token (rec.mobile_phone.getD []) s).1.error.getD [] ≠ []) :
    (dncPass W token realtors index s).1.realtor = rec ∧
    (dncPass W token realtors index s).1.logType = .warning ∧
    (checkDNCStatus W token (rec.mobile_phone.getD []) s).1.error.getD []
      <:+ (dncPass W token realtors index s).1.logMessage := by
  rw [dncPass_of_phone W token realtors index s rec hget hphone, if_pos herr]
  exact ⟨rfl, rfl, List.suffix_append _ _⟩

/-- The error text of `checkDNCStatus` is empty only after a failed request
whose `message` is empty. -/
theorem checkDNCStatus_error_empty {σ : Type} (W : World σ) (token phone : Str) (s : Sys σ)
    (h : (checkDNCStatus W token phone s).1.error = some []) :
    (W.registry s.env (cleanPhoneNumber phone) token).1 = .failure [] := by
  unfold checkDNCStatus at h
  split at h
  · exact absurd (Option.some.inj h) (by decide)
  · dsimp only at h
    split at h
    · exact absurd (Option.some.inj h) (by decide)
    · cases hout : (W.registry s.env (cleanPhoneNumber phone) token).1 with
      | failure m =>
        rw [hout] at h
        simp only [Option.some.injEq] at h
        rw [h]
      | response data =>
        rw [hout] at h
        exfalso
        dsimp only at h
        unfold interpretDnc at h
        split at h
        · simp only [Option.some.injEq] at h
          cases hm : data.RESPONSEMSG with
          | none => rw [hm] at h; exact absurd h (by decide)
          | some m =>
            rw [hm] at h
            cases m with
            | nil => exact absurd h (by decide)
            | cons c cs => simp [orDefault, truthy] at h
        · split at h
          · split at h
            · cases h
            · split at h
              · cases h
              · exact absurd h (by decide)
          · exact absurd h (by decide)

/-- C12 fails at a transport failure whose message is empty: the lookup of the
record ends in the error `""`, and the pass reports the record as clear, with
severity `success`. -/
theorem C12_empty_message_reported_clear :
    (checkDNCStatus emptyMessageWorld RPV_API_TOKEN "5550001111".toList start).1
      = { isDNC := false, error := some [] } ∧
    (dncPass emptyMessageWorld RPV_API_TOKEN [txRecord] 0 start).1.logType = .success ∧
    (dncPass emptyMessageWorld RPV_API_TOKEN [txRecord] 0 start).1.logMessage
      = "Jane Doe: Clear - not on DNC".toList ∧
    (dncPass emptyMessageWorld RPV_API_TOKEN [txRecord] 0 start).1.realtor = txRecord := by
  decide

/-- C20: for a valid index, the record returned by the pass equals the input
record in every property other than `tags`, the array `realtors` is as it was,
`tags` differs from the input's only when the record has a phone and the lookup
is positive without an error, and a record without a phone is returned unchanged,
without a lookup and with an empty log message. -/
theorem C20_dnc_pass_frame {σ : Type} (W : World σ) (token : Str)
    (realtors : List Realtor) (index : Nat) (s : Sys σ) (rec : Realtor)
    (hget : realtors.get? index = some rec) :
    { (dncPass W token realtors index s).1.realtor with tags := rec.tags } = rec ∧
    (dncPass W token realtors index s).1.realtors = realtors ∧
    ((dncPass W token realtors index s).1.realtor.tags ≠ rec.tags →
      rec.mobile_phone.getD [] ≠ [] ∧
      (checkDNCStatus W token (rec.mobile_phone.getD []) s).1.isDNC = true ∧
      (checkDNCStatus W token (rec.mobile_phone.getD []) s).1.error = none) ∧
    (rec.mobile_phone.getD [] = [] →
      (dncPass W token realtors index s).1.realtor = rec ∧
      (dncPass W token realtors index s).2 = s ∧
      (dncPass W token realtors index s).1.logMessage = []) := by
  by_cases hphone : rec.mobile_phone.getD [] = []
  · rw [dncPass_of_no_phone W token realtors index s rec hget hphone]
    exact ⟨rfl, rfl, fun h => absurd rfl h, fun _ => ⟨rfl, rfl, rfl⟩⟩
  · rw [dncPass_of_phone W token realtors index s rec hget hphone]
    by_cases herr : (checkDNCStatus W token (rec.mobile_phone.getD []) s).1.error.getD [] ≠ []
    · rw [if_pos herr]
      exact ⟨rfl, rfl, fun h => absurd rfl h, fun h => absurd h hphone⟩
    · rw [if_neg herr]
      by_cases hd : (checkDNCStatus W token (rec.mobile_phone.getD []) s).1.isDNC = true
      · rw [if_pos hd]
        exact ⟨rfl, rfl,
          fun _ => ⟨hphone, hd, checkDNCStatus_isDNC_no_error W token _ s hd⟩,
          fun h => absurd h hphone⟩
      · rw [if_neg hd]
        exact ⟨rfl, rfl, fun h => absurd rfl h, fun h => absurd h hphone⟩

/-- C20 at the record tagged `"TX Mortgage Lender"`, second of two records, with
a registry that lists the number: only `tags` changes, and the array is as it
was. -/
theorem C20_witness :
    { (dncPass listedWorld RPV_API_TOKEN [{}, txRecord] 1 start).1.realtor with
        tags := txRecord.tags } = txRecord ∧
    (dncPass listedWorld RPV_API_TOKEN [{}, txRecord] 1 start).1.realtors = [{}, txRecord] :=
  have h := C20_dnc_pass_frame listedWorld RPV_API_TOKEN [{}, txRecord] 1 start txRecord rfl
  ⟨h.1, h.2.1⟩

/-! ## `tryScrapeSafe` and `searchSerpApiEnhanced` -/

theorem scrapeBlocked_iff (u : Str) :
    scrapeBlocked u = true ↔
      ("linkedin.com".toList <:+: u ∨ "zillow.com".toList <:+: u ∨
        "facebook.com".toList <:+: u) := by
  simp only [scrapeBlocked, Bool.or_eq_true, includes_iff, or_assoc]

/-- C14: on a URL that contains `linkedin.com`, `zillow.com` or `facebook.com`
`tryScrapeSafe` returns `null` and leaves the world and the log as they were; on
any other URL it sends one page request and returns the contacts of the text, or
`null` when the request or the parsing fails; on a URL it never throws. -/
theorem C14_scrape_blocklist_and_failures {σ : Type} (W : World σ) (u : Str) (s : Sys σ) :
    (("linkedin.com".toList <:+: u ∨ "zillow.com".toList <:+: u ∨
        "facebook.com".toList <:+: u) →
      tryScrapeSafe W (.str u) s = (.normal none, s)) ∧
    (¬ ("linkedin.com".toList <:+: u ∨ "zillow.com".toList <:+: u ∨
        "facebook.com".toList <:+: u) →
      (tryScrapeSafe W (.str u) s).2.log = s.log ++ [Event.fetch u] ∧
      (tryScrapeSafe W (.str u) s).1
        = .normal (match (W.page s.env u).1 with
                   | some text => some (extractContactInfo text)
                   | none => none)) ∧
    (tryScrapeSafe W (.str u) s).1 ≠ .thrown := by
  by_cases hb : scrapeBlocked u = true
  · have h1 : tryScrapeSafe W (.str u) s = (.normal none, s) := by
      simp only [tryScrapeSafe, hb, if_true]
    refine ⟨fun _ => h1, fun hn => absurd ((scrapeBlocked_iff u).mp hb) hn, ?_⟩
    rw [h1]
    exact fun h => by cases h
  · have h1 : tryScrapeSafe W (.str u) s
        = (match (W.page s.env u).1 with
           | some text => (.normal (some (extractContactInfo text)),
               { env := (W.page s.env u).2, log := s.log ++ [Event.fetch u] })
           | none => (.normal none,
               { env := (W.page s.env u).2, log := s.log ++ [Event.fetch u] })) := by
      simp only [tryScrapeSafe, hb, if_false, Bool.false_eq_true]
    refine ⟨fun h => absurd ((scrapeBlocked_iff u).mpr h) hb, fun _ => ?_, ?_⟩
    · rw [h1]
      cases (W.page s.env u).1 <;> exact ⟨rfl, rfl⟩
    · rw [h1]
      cases (W.page s.env u).1 <;> exact fun h => by cases h

/-- C14 at a profile page of `linkedin.com` and at a page of another site that
cannot be fetched. -/
theorem C14_witness :
    tryScrapeSafe janeWorld (.str "https://www.linkedin.com/in/jane-doe".toList) start
      = (.normal none, start) ∧
    (tryScrapeSafe janeWorld (.str "https://acmelending.com/team".toList) start).1
      = .normal none :=
  ⟨(C14_scrape_blocklist_and_failures janeWorld
      "https://www.linkedin.com/in/jane-doe".toList start).1
      ((scrapeBlocked_iff _).mp (by decide)),
   ((C14_scrape_blocklist_and_failures janeWorld
      "https://acmelending.com/team".toList start).2.1
      (fun h => absurd ((scrapeBlocked_iff _).mpr h) (by decide))).2⟩

theorem intercalate_ne_nil (sep a : Str) (rest : List Str) (ha : a ≠ []) :
    sep.intercalate (a :: rest) ≠ [] := by
  cases a with
  | nil => exact absurd rfl ha
  | cons c cs =>
    cases rest <;> simp [List.intercalate, List.intersperse]

/-- The joined text is non-empty exactly when one of the parts is a non-empty
string. -/
theorem joinTruthy_ne_nil_iff (parts : List Field) :
    joinTruthy parts ≠ [] ↔ ∃ x ∈ parts, x.getD [] ≠ [] := by
  unfold joinTruthy
  induction parts with
  | nil => simp [List.intercalate]
  | cons x rest ih =>
    cases x with
    | none =>
      simp only [List.filterMap_cons, List.mem_cons, exists_eq_or_imp, Option.getD_none,
        ne_eq, not_true_eq_false, false_or]
      exact ih
    | some a =>
      cases a with
      | nil =>
        have : truthy ([] : Str) = false := rfl
        simp only [List.filterMap_cons, this, Bool.false_eq_true, if_false, List.mem_cons,
          exists_eq_or_imp, Option.getD_some, ne_eq, not_true_eq_false, false_or]
        exact ih
      | cons c cs =>
        have : truthy (c :: cs) = true := rfl
        simp only [List.filterMap_cons, this, if_true]
        constructor
        · intro _
          exact ⟨some (c :: cs), List.mem_cons_self _ _, List.cons_ne_nil _ _⟩
        · intro _
          exact intercalate_ne_nil _ _ _ (List.cons_ne_nil _ _)

/-- C16: for a response body, `searchSerpApiEnhanced` returns, in this order,
one `organic` result per organic link with the provided snippet (empty when
missing), one `knowledge_graph` result when the knowledge panel is present, one
`local_business` result per place, and one `answer_box` result exactly when the
answer box is present and one of its answer, title and snippet is non-empty; a
body with none of the four gives the empty list, and a failed request gives the
empty list.  The function is total: it never throws. -/
theorem C16_search_normalisation {σ : Type} (W : World σ) (q apiKey : Str) (s : Sys σ) :
    (∀ data, (W.serp s.env q apiKey).1 = .response data →
      ∃ org kg loc ab : List SearchResult,
        (searchSerpApiEnhanced W q apiKey s).1 = org ++ kg ++ loc ++ ab ∧
        (∀ r ∈ org, r.type = .organic) ∧
        org.map (fun r => r.snippet)
          = (data.organic_results.getD []).map (fun o => o.snippet.getD []) ∧
        (∀ r ∈ kg, r.type = .knowledge_graph) ∧
        kg.length = (if data.knowledge_graph = none then 0 else 1) ∧
        (∀ r ∈ loc, r.type = .local_business) ∧
        loc.length = (data.places.getD []).length ∧
        (∀ r ∈ ab, r.type = .answer_box) ∧
        ab.length ≤ 1 ∧
        (ab ≠ [] ↔ ∃ box, data.answer_box = some box ∧
          (box.answer.getD [] ≠ [] ∨ box.title.getD [] ≠ [] ∨ box.snippet.getD [] ≠ [])) ∧
        (data.organic_results = none → data.knowledge_graph = none → data.places = none →
          data.answer_box = none → (searchSerpApiEnhanced W q apiKey s).1 = [])) ∧
    ((W.serp s.env q apiKey).1 = .failure → (searchSerpApiEnhanced W q apiKey s).1 = []) := by
  constructor
  · intro data hdata
    have hres : (searchSerpApiEnhanced W q apiKey s).1 = normalizeSerp data := by
      unfold searchSerpApiEnhanced
      dsimp only
      rw [hdata]
    refine ⟨organicResults data, knowledgeGraphResults data, localResults data,
      answerBoxResults data, hres, ?_, ?_, ?_, ?_, ?_, ?_, ?_, ?_, ?_, ?_⟩
    · intro r hr
      unfold organicResults at hr
      cases ho : data.organic_results with
      | none => rw [ho] at hr; cases hr
      | some rs =>
        rw [ho] at hr
        obtain ⟨o, _, rfl⟩ := List.mem_map.mp hr
        rfl
    · unfold organicResults
      cases data.organic_results with
      | none => rfl
      | some rs =>
        simp only [List.map_map, Option.getD_some]
        apply List.map_congr_left
        intro o _
        exact orDefault_nil o.snippet
    · intro r hr
      unfold knowledgeGraphResults at hr
      cases hk : data.knowledge_graph with
      | none => rw [hk] at hr; cases hr
      | some kg =>
        rw [hk] at hr
        rw [List.mem_singleton] at hr
        rw [hr]
    · unfold knowledgeGraphResults
      cases data.knowledge_graph <;> simp
    · intro r hr
      unfold localResults at hr
      cases hp : data.places with
      | none => rw [hp] at hr; cases hr
      | some ps =>
        rw [hp] at hr
        obtain ⟨o, _, rfl⟩ := List.mem_map.mp hr
        rfl
    · unfold localResults
      cases data.places <;> simp
    · intro r hr
      unfold answerBoxResults at hr
      cases hb : data.answer_box with
      | none => rw [hb] at hr; cases hr
      | some box =>
        rw [hb] at hr
        dsimp only at hr
        split at hr
        · rw [List.mem_singleton] at hr
          rw [hr]
        · cases hr
    · unfold answerBoxResults
      cases data.answer_box with
      | none => simp
      | some box =>
        dsimp only
        split <;> simp
    · unfold answerBoxResults
      cases data.answer_box with
      | none => simp
      | some box =>
        dsimp only
        have hj := joinTruthy_ne_nil_iff [box.answer, box.title, box.snippet]
        simp only [List.mem_cons, List.mem_singleton, List.not_mem_nil, or_false,
          exists_eq_or_imp, exists_eq_left] at hj
        by_cases ht : truthy (joinTruthy [box.answer, box.title, box.snippet]) = true
        · rw [if_pos ht]
          have := hj.mp ((truthy_iff _).mp ht)
          simp only [ne_eq, List.cons_ne_nil, not_false_eq_true, Option.some.injEq,
            exists_eq_left', true_iff]
          exact this
        · rw [if_neg ht]
          have hn : ¬ (box.answer.getD [] ≠ [] ∨ box.title.getD [] ≠ [] ∨
              box.snippet.getD [] ≠ []) :=
            fun h => ht ((truthy_iff _).mpr (hj.mpr h))
          simp only [ne_eq, not_true_eq_false, Option.some.injEq, exists_eq_left', false_iff]
          exact hn
    · intro h1 h2 h3 h4
      rw [hres]
      simp [normalizeSerp, organicResults, knowledgeGraphResults, localResults,
        answerBoxResults, h1, h2, h3, h4]
  · intro hfail
    unfold searchSerpApiEnhanced
    dsimp only
    rw [hfail]

/-- C16 at a failed request and at the response with one organic result. -/
theorem C16_witness :
    (searchSerpApiEnhanced silentWorld "Jane Doe".toList [] start).1 = [] ∧
    ∃ org kg loc ab : List SearchResult,
      (searchSerpApiEnhanced janeWorld "Jane Doe".toList [] start).1 = org ++ kg ++ loc ++ ab ∧
      org.map (fun r => r.snippet)
        = ["Jane Doe Acme Lending jane.doe@acmelending.com".toList] ∧
      kg.length = 0 ∧ loc.length = 0 ∧ ab.length ≤ 1 :=
  ⟨(C16_search_normalisation silentWorld "Jane Doe".toList [] start).2 rfl,
   match (C16_search_normalisation janeWorld "Jane Doe".toList [] start).1 janeSerp rfl with
   | ⟨org, kg, loc, ab, h, _, hs, _, hk, _, hl, _, ha, _, _⟩ =>
     ⟨org, kg, loc, ab, h, hs, hk, hl, ha⟩⟩

/-! ## Phones found and the registry -/

/-- C19: every phone returned by `extractContactInfo` normalises to exactly 10
digits, or to exactly 11 digits of which the first is `1`; and with a token
configured, `checkDNCStatus` applied to a normalised phone of 11 digits returns
`isDNC = false` with the error `Invalid phone number length`, the world and the
log being as they were. -/
theorem C19_found_phone_lengths {σ : Type} (W : World σ) (token : Str) (s : Sys σ) :
    (∀ text p, p ∈ (extractContactInfo text).phones →
      (cleanPhoneNumber p).length = 10 ∨
      ((cleanPhoneNumber p).length = 11 ∧ (cleanPhoneNumber p).head? = some '1')) ∧
    (∀ p, token ≠ [] → (cleanPhoneNumber p).length = 11 →
      checkDNCStatus W token (cleanPhoneNumber p) s
        = ({ isDNC := false, error := some "Invalid phone number length".toList }, s)) := by
  constructor
  · intro text p hp
    rw [cleanPhoneNumber_eq]
    exact extract_phone_digits text p hp
  · intro p htoken hlen
    have hidem : cleanPhoneNumber (cleanPhoneNumber p) = cleanPhoneNumber p := by
      rw [cleanPhoneNumber_eq, cleanPhoneNumber_eq, List.filter_filter]
      simp
    have hp : truthy (cleanPhoneNumber p) = true := by
      rw [truthy_iff]
      intro hnil
      rw [hnil] at hlen
      cases hlen
    have ht : truthy token = true := (truthy_iff token).mpr htoken
    unfold checkDNCStatus
    have h1 : ¬ ((!truthy (cleanPhoneNumber p) || !truthy token) = true) := by
      rw [hp, ht]; decide
    rw [if_neg h1]
    dsimp only
    have h2 : (cleanPhoneNumber (cleanPhoneNumber p)).length ≠ 10 := by
      rw [hidem, hlen]; decide
    rw [if_pos h2]

/-- C19 at the text `call +1 (555) 123-4567`: the phone found has the eleven
digits `15551234567`, and the lookup of these digits is refused. -/
theorem C19_witness :
    (cleanPhoneNumber "+1 (555) 123-4567".toList).length = 11 ∧
    (cleanPhoneNumber "+1 (555) 123-4567".toList).head? = some '1' ∧
    checkDNCStatus listedWorld RPV_API_TOKEN "15551234567".toList start
      = ({ isDNC := false, error := some "Invalid phone number length".toList }, start) :=
  have h := C19_found_phone_lengths listedWorld RPV_API_TOKEN start
  have h1 := (h.1 "call +1 (555) 123-4567".toList "+1 (555) 123-4567".toList
    (by decide)).resolve_left (by decide)
  ⟨h1.1, h1.2, h.2 "+1 (555) 123-4567".toList (by decide) (by decide)⟩

/-! ## The log of a run -/

theorem scrapeCalls_append (a b : List Event) :
    scrapeCalls (a ++ b) = scrapeCalls a ++ scrapeCalls b := by
  simp [scrapeCalls, List.filterMap_append]

theorem searchCalls_append (a b : List Event) :
    searchCalls (a ++ b) = searchCalls a ++ searchCalls b := by
  simp [searchCalls, List.filterMap_append]

/-- On a string `tryScrapeSafe` ends normally, having logged at most a page
request. -/
theorem tryScrapeSafe_str {σ : Type} (W : World σ) (u : Str) (s : Sys σ) :
    ∃ c s2 d, tryScrapeSafe W (.str u) s = (.normal c, s2) ∧ s2.log = s.log ++ d ∧
      scrapeCalls d = [] ∧ searchCalls d = [] := by
  by_cases hb : scrapeBlocked u = true
  · exact ⟨none, s, [], by simp only [tryScrapeSafe, hb, if_true], by simp, rfl, rfl⟩
  · cases hpage : (W.page s.env u).1 with
    | none =>
      refine ⟨none, { env := (W.page s.env u).2, log := s.log ++ [Event.fetch u] },
        [Event.fetch u], ?_, rfl, rfl, rfl⟩
      simp only [tryScrapeSafe, hb, if_false, Bool.false_eq_true, hpage]
    | some text =>
      refine ⟨some (extractContactInfo text),
        { env := (W.page s.env u).2, log := s.log ++ [Event.fetch u] },
        [Event.fetch u], ?_, rfl, rfl, rfl⟩
      simp only [tryScrapeSafe, hb, if_false, Bool.false_eq_true, hpage]

/-- The log of the scrape loop: no search request, and the calls of
`tryScrapeSafe` are on the truthy `url` values of the results, in order, up to
and including the first call that throws. -/
theorem scrapeLoop_log {σ : Type} (W : World σ) (results : List SearchResult) :
    ∀ (all : AllContacts) (s : Sys σ),
      ∃ d, (scrapeLoop W results all s).2.log = s.log ++ d ∧ searchCalls d = [] ∧
        scrapeCalls d
          = untilThrow ((results.filter (fun x => x.url.truthy)).map (fun x => x.url)) := by
  induction results with
  | nil =>
    intro all s
    exact ⟨[], by simp [scrapeLoop], rfl, rfl⟩
  | cons r rs ih =>
    intro all s
    rw [scrapeLoop]
    by_cases hu : r.url.truthy = true
    · simp only [hu, Bool.not_true, Bool.false_eq_true, if_false, List.filter_cons, if_true,
        List.map_cons]
      cases hurl : r.url with
      | undefined => rw [hurl] at hu; cases hu
      | other =>
        refine ⟨[Event.scrape .other], ?_, rfl, rfl⟩
        simp [tryScrapeSafe, Sys.record]
      | str u =>
        obtain ⟨c, s2, d2, hts, hlog, hsc, hse⟩ :=
          tryScrapeSafe_str W u (s.record (.scrape (.str u)))
        rw [hts]
        dsimp only
        have key : ∀ allx : AllContacts, ∃ d,
            (scrapeLoop W rs allx (s2.record (.sleep 1000))).2.log = s.log ++ d ∧
            searchCalls d = [] ∧
            scrapeCalls d = untilThrow (UrlVal.str u ::
              (rs.filter (fun x => x.url.truthy)).map (fun x => x.url)) := by
          intro allx
          obtain ⟨d3, hlog3, hse3, hsc3⟩ := ih allx (s2.record (.sleep 1000))
          refine ⟨[Event.scrape (.str u)] ++ d2 ++ [Event.sleep 1000] ++ d3, ?_, ?_, ?_⟩
          · rw [hlog3]
            simp [Sys.record, hlog]
          · simp only [searchCalls_append, hse, hse3]
            rfl
          · simp only [scrapeCalls_append, hsc, hsc3]
            rfl
        exact key _
    · simp only [hu, Bool.not_false, if_true, List.filter_cons, Bool.false_eq_true, if_false]
      exact ih all s

theorem untilThrow_of_str (l : List UrlVal) (h : ∀ v ∈ l, ∃ u, v = .str u) :
    untilThrow l = l := by
  induction l with
  | nil => rfl
  | cons v rest ih =>
    obtain ⟨u, rfl⟩ := h v (List.mem_cons_self _ _)
    simp only [untilThrow]
    rw [ih (fun w hw => h w (List.mem_cons_of_mem _ hw))]

/-- The log of the loop over the queries extends the log it starts from, and
its search requests are the first `n` queries, in order. -/
theorem queryLoop_log {σ : Type} (W : World σ) (apiKey : Str) (qs : List Str) :
    ∀ (all : AllContacts) (s : Sys σ),
      ∃ d n, (queryLoop W apiKey qs all s).2.log = s.log ++ d ∧ n ≤ qs.length ∧
        searchCalls d = qs.take n := by
  induction qs with
  | nil =>
    intro all s
    exact ⟨[], 0, by simp [queryLoop], Nat.le_refl _, rfl⟩
  | cons q rest ih =>
    intro all s
    rw [queryLoop]
    have hsl := searchSerpApiEnhanced_log W q apiKey s
    split
    · refine ⟨[Event.search q apiKey], 1, hsl, by simp, rfl⟩
    · obtain ⟨d2, hlog2, hse2, _⟩ := scrapeLoop_log W ((searchSerpApiEnhanced W q apiKey s).1.take 5)
        (snippetLoop (searchSerpApiEnhanced W q apiKey s).1 all)
        (searchSerpApiEnhanced W q apiKey s).2
      split
      · rename_i s2 hsc
        rw [hsc] at hlog2
        refine ⟨[Event.search q apiKey] ++ d2, 1, ?_, by simp, ?_⟩
        · show s2.log = _
          rw [hlog2, hsl, List.append_assoc]
        · rw [searchCalls_append, hse2]
          rfl
      · rename_i all2 s2 hsc
        rw [hsc] at hlog2
        split
        · refine ⟨[Event.search q apiKey] ++ d2, 1, ?_, by simp, ?_⟩
          · show s2.log = _
            rw [hlog2, hsl, List.append_assoc]
          · rw [searchCalls_append, hse2]
            rfl
        · obtain ⟨d3, n3, hlog3, hn3, hse3⟩ := ih all2 (s2.record (.sleep 2000))
          refine ⟨[Event.search q apiKey] ++ d2 ++ [Event.sleep 2000] ++ d3, n3 + 1, ?_,
            by simpa using hn3, ?_⟩
          · rw [hlog3]
            simp only [Sys.record]
            have : s2.log = s.log ++ [Event.search q apiKey] ++ d2 := by
              rw [hlog2, hsl]
            rw [this]
            simp
          · simp only [searchCalls_append, hse2, hse3, List.append_nil]
            rfl

/-- C13, as stated, fails: of the six results of a query the first has no URL
and the next five have one, so the fifth result that has a URL is
`https://site5.com`; the run calls `tryScrapeSafe` on the first four of them
only, for each of the five variants. -/
theorem C13_counterexample :
    (((searchSerpApiEnhanced sixResultsWorld
        "Jane Doe Acme Lending email phone contact".toList [] start).1.filter
          (fun x => x.url.truthy)).take 5).map (fun x => x.url)
      = [.str "https://site1.com".toList, .str "https://site2.com".toList,
         .str "https://site3.com".toList, .str "https://site4.com".toList,
         .str "https://site5.com".toList] ∧
    (scrapeCalls (processRealtor sixResultsWorld janeRecord [] start).2.log).take 4
      = [.str "https://site1.com".toList, .str "https://site2.com".toList,
         .str "https://site3.com".toList, .str "https://site4.com".toList] ∧
    (scrapeCalls (processRealtor sixResultsWorld janeRecord [] start).2.log).length = 20 ∧
    Event.scrape (.str "https://site5.com".toList)
      ∉ (processRealtor sixResultsWorld janeRecord [] start).2.log := by
  decide

/-- C13, amended: for a variant `q` that reaches the scraping step, the part
`seg` of the log written by its scraping loop follows its search request, and
the calls of `tryScrapeSafe` in it are, in result order, on those of the first 5
results that have a truthy `url`, up to and including the first call that
throws; when none of these values makes the call throw, the calls are on
exactly those results. -/
theorem C13_scrape_among_first_five {σ : Type} (W : World σ) (r : RealtorData)
    (apiKey : Str) (s : Sys σ) (pre : List Str) (q : Str) (post : List Str)
    (all1 : AllContacts) (s1 : Sys σ)
    (hq : queries r.firstName r.lastName r.company = pre ++ q :: post)
    (hpre : queryLoop W apiKey pre noContacts s = (.normal all1, s1))
    (hnone : all1.found = false)
    (hsnip : (snippetLoop (searchSerpApiEnhanced W q apiKey s1).1 all1).found = false) :
    ∃ seg later,
      (processRealtor W r apiKey s).2.log
        = s1.log ++ [Event.search q apiKey] ++ seg ++ later ∧
      (scrapeLoop W ((searchSerpApiEnhanced W q apiKey s1).1.take 5)
          (snippetLoop (searchSerpApiEnhanced W q apiKey s1).1 all1)
          (searchSerpApiEnhanced W q apiKey s1).2).2.log
        = s1.log ++ [Event.search q apiKey] ++ seg ∧
      scrapeCalls seg
        = untilThrow ((((searchSerpApiEnhanced W q apiKey s1).1.take 5).filter
            (fun x => x.url.truthy)).map (fun x => x.url)) ∧
      ((∀ x ∈ (searchSerpApiEnhanced W q apiKey s1).1.take 5, x.url ≠ .other) →
        scrapeCalls seg
          = (((searchSerpApiEnhanced W q apiKey s1).1.take 5).filter
              (fun x => x.url.truthy)).map (fun x => x.url)) := by
  obtain ⟨seg, hseg, _, hcalls⟩ := scrapeLoop_log W
    ((searchSerpApiEnhanced W q apiKey s1).1.take 5)
    (snippetLoop (searchSerpApiEnhanced W q apiKey s1).1 all1)
    (searchSerpApiEnhanced W q apiKey s1).2
  rw [searchSerpApiEnhanced_log] at hseg
  have hlater : ∃ later, (queryLoop W apiKey (q :: post) all1 s1).2.log
      = s1.log ++ [Event.search q apiKey] ++ seg ++ later := by
    rw [queryLoop]
    rw [if_neg (by rw [hsnip]; decide)]
    split
    · rename_i s2 hsc
      rw [hsc] at hseg
      exact ⟨[], by rw [List.append_nil]; exact hseg⟩
    · rename_i all2 s2 hsc
      rw [hsc] at hseg
      split
      · exact ⟨[], by rw [List.append_nil]; exact hseg⟩
      · obtain ⟨d3, n3, hlog3, _, _⟩ := queryLoop_log W apiKey post all2 (s2.record (.sleep 2000))
        refine ⟨[Event.sleep 2000] ++ d3, ?_⟩
        rw [hlog3]
        have : s2.log = s1.log ++ [Event.search q apiKey] ++ seg := hseg
        simp [Sys.record, this]
  obtain ⟨later, hl⟩ := hlater
  refine ⟨seg, later, ?_, hseg, hcalls, ?_⟩
  · rw [processRealtor_snd, hq, queryLoop_append W apiKey pre (q :: post) _ _ _ _ hpre hnone]
    exact hl
  · intro hstr
    rw [hcalls]
    apply untilThrow_of_str
    intro v hv
    obtain ⟨x, hx, rfl⟩ := List.mem_map.mp hv
    have hxm := (List.mem_filter.mp hx).1
    have hxt := (List.mem_filter.mp hx).2
    cases hurl : x.url with
    | undefined => rw [hurl] at hxt; cases hxt
    | other => exact absurd hurl (hstr x hxm)
    | str u => exact ⟨u, rfl⟩

/-- C13, amended, at the first variant of the record of Jane Doe with the six
results: the calls of the variant are on the four results with a URL among the
first five. -/
theorem C13_witness :
    ∃ seg later,
      (processRealtor sixResultsWorld janeRecord [] start).2.log
        = [Event.search "Jane Doe Acme Lending email phone contact".toList []] ++ seg ++ later ∧
      scrapeCalls seg
        = [.str "https://site1.com".toList, .str "https://site2.com".toList,
           .str "https://site3.com".toList, .str "https://site4.com".toList] :=
  match C13_scrape_among_first_five sixResultsWorld janeRecord [] start []
    "Jane Doe Acme Lending email phone contact".toList
    ["Jane Doe Acme Lending email cell contact".toList,
     "Jane Doe Acme Lending mortgage lender contact".toList,
     "Jane Doe mortgage lender Acme Lending".toList,
     "\"Jane Doe\" mortgage lender Acme Lending".toList]
    noContacts start (by decide) rfl (by decide) (by decide) with
  | ⟨seg, later, h1, _, h3, _⟩ => ⟨seg, later, h1, h3⟩

/-- A loop that does not end normally with nothing found has stopped: further
queries are not reached. -/
theorem queryLoop_stopped {σ : Type} (W : World σ) (apiKey : Str) (pre post : List Str) :
    ∀ (all : AllContacts) (s : Sys σ), all.found = false →
      (¬ ∃ all1 s1, queryLoop W apiKey pre all s = (.normal all1, s1) ∧ all1.found = false) →
      queryLoop W apiKey (pre ++ post) all s = queryLoop W apiKey pre all s := by
  induction pre with
  | nil =>
    intro all s hall hstop
    exact absurd ⟨all, s, by simp [queryLoop], hall⟩ hstop
  | cons q rest ih =>
    intro all s _ hstop
    rw [List.cons_append, queryLoop, queryLoop]
    rw [queryLoop] at hstop
    split
    · rfl
    · rename_i hf
      rw [if_neg hf] at hstop
      split
      · rfl
      · rename_i all2 s2 hsc
        rw [hsc] at hstop
        dsimp only at hstop
        split
        · rfl
        · rename_i hf2
          rw [if_neg hf2] at hstop
          exact ih all2 _ (by simpa using hf2) hstop

/-- C15: the queries are the five variants in the stated order; the search
requests of a run are the first `n` of them, in order, for some `n ≤ 5`; and the
variant after the variants `pre` is searched only if the loop over `pre` ended
normally with no contact found. -/
theorem C15_query_order {σ : Type} (W : World σ) (r : RealtorData) (apiKey : Str)
    (s : Sys σ) :
    queries r.firstName r.lastName r.company =
      [ interpolate r.firstName ++ " ".toList ++ interpolate r.lastName ++ " ".toList ++
          interpolate r.company ++ " email phone contact".toList,
        interpolate r.firstName ++ " ".toList ++ interpolate r.lastName ++ " ".toList ++
          interpolate r.company ++ " email cell contact".toList,
        interpolate r.firstName ++ " ".toList ++ interpolate r.lastName ++ " ".toList ++
          interpolate r.company ++ " mortgage lender contact".toList,
        interpolate r.firstName ++ " ".toList ++ interpolate r.lastName ++
          " mortgage lender ".toList ++ interpolate r.company,
        "\"".toList ++ interpolate r.firstName ++ " ".toList ++ interpolate r.lastName ++
          "\" mortgage lender ".toList ++ interpolate r.company ] ∧
    ∃ d n, (processRealtor W r apiKey s).2.log = s.log ++ d ∧ n ≤ 5 ∧
      searchCalls d = (queries r.firstName r.lastName r.company).take n ∧
      ∀ pre post, queries r.firstName r.lastName r.company = pre ++ post →
        pre.length < n →
        ∃ all1 s1, queryLoop W apiKey pre noContacts s = (.normal all1, s1) ∧
          all1.found = false := by
  refine ⟨rfl, ?_⟩
  obtain ⟨d, n, hlog, hn, hsearch⟩ :=
    queryLoop_log W apiKey (queries r.firstName r.lastName r.company) noContacts s
  refine ⟨d, n, ?_, hn, hsearch, ?_⟩
  · rw [processRealtor_snd]
    exact hlog
  · intro pre post hq hlt
    by_contra hstop
    have hsame := queryLoop_stopped W apiKey pre post noContacts s rfl hstop
    obtain ⟨d', n', hlog', hn', hsearch'⟩ := queryLoop_log W apiKey pre noContacts s
    rw [hq, hsame, hlog'] at hlog
    have hd : d' = d := List.append_cancel_left hlog
    rw [← hd, hsearch', hq] at hsearch
    have hlen := congrArg List.length hsearch
    rw [List.length_take, List.length_take, List.length_append] at hlen
    have hqs : (queries r.firstName r.lastName r.company).length
        = pre.length + post.length := by
      rw [hq, List.length_append]
    omega

/-- C15 in a world that answers nothing, for the record of Jane Doe: the five
variants are searched, in order. -/
theorem C15_witness :
    ∃ d n, (processRealtor silentWorld janeRecord [] start).2.log = d ∧ n ≤ 5 ∧
      searchCalls d
        = ["Jane Doe Acme Lending email phone contact".toList,
           "Jane Doe Acme Lending email cell contact".toList,
           "Jane Doe Acme Lending mortgage lender contact".toList,
           "Jane Doe mortgage lender Acme Lending".toList,
           "\"Jane Doe\" mortgage lender Acme Lending".toList].take n :=
  match (C15_query_order silentWorld janeRecord [] start).2 with
  | ⟨d, n, h1, h2, h3, _⟩ => ⟨d, n, h1, h2, h3⟩

/-! ## A run that ends with an exception -/

/-- The scrape loop throws only in a call of `tryScrapeSafe` on a value that is
no string, and that call is the last entry of the log. -/
theorem scrapeLoop_thrown_log {σ : Type} (W : World σ) (results : List SearchResult) :
    ∀ (all : AllContacts) (s s1 : Sys σ), scrapeLoop W results all s = (.thrown, s1) →
      ∃ before, s1.log = before ++ [Event.scrape .other] := by
  induction results with
  | nil =>
    intro all s s1 h
    simp [scrapeLoop] at h
  | cons r rs ih =>
    intro all s s1 h
    rw [scrapeLoop] at h
    by_cases hu : r.url.truthy = true
    · simp only [hu, Bool.not_true, Bool.false_eq_true, if_false] at h
      cases hurl : r.url with
      | undefined => rw [hurl] at hu; cases hu
      | other =>
        rw [hurl] at h
        simp only [tryScrapeSafe, Prod.mk.injEq, true_and] at h
        exact ⟨s.log, by rw [← h]; rfl⟩
      | str u =>
        rw [hurl] at h
        obtain ⟨c, s2, d2, hts, _, _, _⟩ := tryScrapeSafe_str W u (s.record (.scrape (.str u)))
        rw [hts] at h
        exact ih _ _ _ h
    · simp only [hu, Bool.not_false, if_true] at h
      exact ih _ _ _ h

theorem queryLoop_thrown_log {σ : Type} (W : World σ) (apiKey : Str) (qs : List Str) :
    ∀ (all : AllContacts) (s s1 : Sys σ), queryLoop W apiKey qs all s = (.thrown, s1) →
      ∃ before, s1.log = before ++ [Event.scrape .other] := by
  induction qs with
  | nil =>
    intro all s s1 h
    simp [queryLoop] at h
  | cons q rest ih =>
    intro all s s1 h
    rw [queryLoop] at h
    split at h
    · cases h
    · split at h
      · rename_i s2 hsc
        simp only [Prod.mk.injEq, true_and] at h
        rw [← h]
        exact scrapeLoop_thrown_log W _ _ _ _ hsc
      · split at h
        · cases h
        · exact ih _ _ _ h

/-- C17: when the loop of `processRealtor` is left by an exception, or the
statements after it raise one, `processRealtor` returns a record with the
input's `firstName`, `lastName`, `company`, `work_email` and `mobile_phone` (the
empty string when missing), source `""` and confidence 0, whatever had been
accumulated; and when the loop is left by an exception, the throwing call is the
last entry of the log, so no further variant is attempted. -/
theorem C17_exception_returns_input {σ : Type} (W : World σ) (r : RealtorData)
    (apiKey : Str) (s : Sys σ)
    (hthrow :
      (∃ s1, queryLoop W apiKey (queries r.firstName r.lastName r.company) noContacts s
        = (.thrown, s1)) ∨
      (∃ all s1, queryLoop W apiKey (queries r.firstName r.lastName r.company) noContacts s
        = (.normal all, s1) ∧ assemble r all = .thrown)) :
    (processRealtor W r apiKey s).1.firstName = r.firstName ∧
    (processRealtor W r apiKey s).1.lastName = r.lastName ∧
    (processRealtor W r apiKey s).1.company = r.company ∧
    (processRealtor W r apiKey s).1.work_email = r.work_email.getD [] ∧
    (processRealtor W r apiKey s).1.mobile_phone = r.mobile_phone.getD [] ∧
    (processRealtor W r apiKey s).1.source = [] ∧
    (processRealtor W r apiKey s).1.confidence = 0 ∧
    ((∃ s1, queryLoop W apiKey (queries r.firstName r.lastName r.company) noContacts s
        = (.thrown, s1)) →
      ∃ before, (processRealtor W r apiKey s).2.log = before ++ [Event.scrape .other]) := by
  have hout : (processRealtor W r apiKey s).1 = unchangedRealtor r := by
    rcases hthrow with ⟨s1, h⟩ | ⟨all, s1, h, hasm⟩
    · exact processRealtor_of_thrown W r apiKey s s1 h
    · rw [processRealtor_of_normal W r apiKey s s1 all h, hasm]
  rw [hout]
  refine ⟨rfl, rfl, rfl, orDefault_nil _, orDefault_nil _, rfl, rfl, ?_⟩
  rintro ⟨s1, h⟩
  rw [processRealtor_snd, h]
  exact queryLoop_thrown_log W apiKey _ _ _ _ h

/-- C17 for the record of Jane Doe with contacts on record, when the first page
scraped shows an email and the `link` of the second result is no string: the
call on it throws, and the record comes back with its own contacts. -/
theorem C17_witness :
    (processRealtor badLinkWorld janeOnRecord [] start).1.work_email
      = "jdoe@oldmail.com".toList ∧
    (processRealtor badLinkWorld janeOnRecord [] start).1.mobile_phone
      = "5550001111".toList ∧
    (processRealtor badLinkWorld janeOnRecord [] start).1.source = [] ∧
    (processRealtor badLinkWorld janeOnRecord [] start).1.confidence = 0 ∧
    (processRealtor badLinkWorld janeOnRecord [] start).2.log
      = [Event.search "Jane Doe Acme Lending email phone contact".toList [],
         Event.scrape (.str "https://acmelending.com/team".toList),
         Event.fetch "https://acmelending.com/team".toList,
         Event.sleep 1000,
         Event.scrape .other] :=
  have h := C17_exception_returns_input badLinkWorld janeOnRecord [] start
    (Or.inl ⟨(queryLoop badLinkWorld [] (queries janeOnRecord.firstName
      janeOnRecord.lastName janeOnRecord.company) noContacts start).2, rfl⟩)
  ⟨h.2.2.2.1, h.2.2.2.2.1, h.2.2.2.2.2.1, h.2.2.2.2.2.2.1, by decide⟩

/-! ## The source of a run -/

theorem traced_noContacts {σ : Type} (W : World σ) : noContacts.Traced W :=
  Or.inl rfl

/-- Pushing contacts that come from a result keeps the accumulator traced. -/
theorem AllContacts.Traced.pushOrigin {σ : Type} {W : World σ} {all : AllContacts}
    (ht : all.Traced W) (hwf : all.WellFormed) (src : UrlVal) (ci : ContactInfo)
    (ho : Origin W src ci) (hne : ci.emails ≠ [] ∨ ci.phones ≠ []) :
    AllContacts.Traced W
      { emails := all.emails ++ ci.emails, phones := all.phones ++ ci.phones,
        sources := all.sources ++ [src] } := by
  right
  rcases ht with hnil | ⟨src0, ci0, ho0, hh, ⟨es, he⟩, ⟨ps, hp⟩, hne0⟩
  · obtain ⟨he, hp⟩ := hwf.2.2.2.mp hnil
    refine ⟨src, ci, ho, ?_, ⟨[], ?_⟩, ⟨[], ?_⟩, hne⟩
    · show (all.sources ++ [src]).head? = some src
      rw [hnil]; rfl
    · show all.emails ++ ci.emails = ci.emails ++ []
      rw [he]; simp
    · show all.phones ++ ci.phones = ci.phones ++ []
      rw [hp]; simp
  · refine ⟨src0, ci0, ho0, ?_, ⟨es ++ ci.emails, ?_⟩, ⟨ps ++ ci.phones, ?_⟩, hne0⟩
    · show (all.sources ++ [src]).head? = some src0
      cases hs : all.sources with
      | nil => rw [hs] at hh; cases hh
      | cons a as => rw [hs] at hh; exact hh
    · show all.emails ++ ci.emails = ci0.emails ++ (es ++ ci.emails)
      rw [he, List.append_assoc]
    · show all.phones ++ ci.phones = ci0.phones ++ (ps ++ ci.phones)
      rw [hp, List.append_assoc]

theorem snippetStep_traced {σ : Type} (W : World σ) (all : AllContacts) (res : SearchResult)
    (hres : ∃ env q k data, (W.serp env q k).1 = .response data ∧ res ∈ normalizeSerp data)
    (hwf : all.WellFormed) (ht : all.Traced W) : (snippetStep all res).Traced W := by
  unfold snippetStep
  split
  · rename_i hc
    obtain ⟨env, q, k, data, hd, hm⟩ := hres
    exact ht.pushOrigin hwf _ (snippetContact res)
      ⟨env, q, k, data, res, hd, hm, Or.inl ⟨rfl, rfl⟩⟩ ((length_pos_or_iff _ _).mp hc)
  · exact ht

theorem snippetLoop_traced {σ : Type} (W : World σ) (results : List SearchResult) :
    ∀ all : AllContacts,
      (∀ res ∈ results, ∃ env q k data,
        (W.serp env q k).1 = .response data ∧ res ∈ normalizeSerp data) →
      all.WellFormed → all.Traced W → (snippetLoop results all).Traced W := by
  induction results with
  | nil => intro all _ _ ht; exact ht
  | cons r rs ih =>
    intro all hres hwf ht
    exact ih _ (fun x hx => hres x (List.mem_cons_of_mem _ hx))
      (snippetStep_wellFormed all r hwf)
      (snippetStep_traced W all r (hres r (List.mem_cons_self _ _)) hwf ht)

theorem tryScrapeSafe_some_url {σ : Type} (W : World σ) (url : UrlVal) (s s1 : Sys σ)
    (sc : ContactInfo) (h : tryScrapeSafe W url s = (.normal (some sc), s1)) :
    ∃ u text, url = .str u ∧ (W.page s.env u).1 = some text ∧
      sc = extractContactInfo text := by
  unfold tryScrapeSafe at h
  split at h
  · cases h
  · cases h
  · rename_i u
    split at h
    · cases h
    · dsimp only at h
      split at h
      · rename_i text htext
        simp only [Prod.mk.injEq, Completion.normal.injEq, Option.some.injEq] at h
        exact ⟨u, text, rfl, htext, h.1.symm⟩
      · simp at h

theorem scrapeLoop_traced {σ : Type} (W : World σ) (results : List SearchResult) :
    ∀ (all : AllContacts) (s : Sys σ) (all1 : AllContacts) (s1 : Sys σ),
      (∀ res ∈ results, ∃ env q k data,
        (W.serp env q k).1 = .response data ∧ res ∈ normalizeSerp data) →
      all.WellFormed → all.Traced W →
      scrapeLoop W results all s = (.normal all1, s1) → all1.Traced W := by
  induction results with
  | nil =>
    intro all s all1 s1 _ _ ht hrun
    simp only [scrapeLoop, Prod.mk.injEq, Completion.normal.injEq] at hrun
    exact hrun.1 ▸ ht
  | cons r rs ih =>
    intro all s all1 s1 hres hwf ht hrun
    have hres' : ∀ res ∈ rs, ∃ env q k data,
        (W.serp env q k).1 = .response data ∧ res ∈ normalizeSerp data :=
      fun x hx => hres x (List.mem_cons_of_mem _ hx)
    rw [scrapeLoop] at hrun
    by_cases hu : r.url.truthy = true
    · simp only [hu, Bool.not_true, Bool.false_eq_true, if_false] at hrun
      rcases hts : tryScrapeSafe W r.url (s.record (.scrape r.url)) with ⟨c, s2⟩
      rw [hts] at hrun
      cases c with
      | thrown => cases hrun
      | normal sc =>
        dsimp only at hrun
        cases sc with
        | none => exact ih _ _ _ _ hres' hwf ht hrun
        | some ci =>
          obtain ⟨u, text, hurl, htext, rfl⟩ := tryScrapeSafe_some_url W _ _ _ _ hts
          dsimp only at hrun
          split at hrun
          · rename_i hc
            obtain ⟨env, q, k, data, hd, hm⟩ := hres r (List.mem_cons_self _ _)
            exact ih _ _ _ _ hres'
              (hwf.push text r.url hu ((length_pos_or_iff _ _).mp hc))
              (ht.pushOrigin hwf r.url (extractContactInfo text)
                ⟨env, q, k, data, r, hd, hm,
                  Or.inr ⟨rfl, (s.record (.scrape r.url)).env, u, text, hurl, htext, rfl⟩⟩
                ((length_pos_or_iff _ _).mp hc))
              hrun
          · exact ih _ _ _ _ hres' hwf ht hrun
    · simp only [hu, Bool.not_false, if_true] at hrun
      exact ih _ _ _ _ hres' hwf ht hrun

theorem queryLoop_traced {σ : Type} (W : World σ) (apiKey : Str) (qs : List Str) :
    ∀ (all : AllContacts) (s : Sys σ) (all1 : AllContacts) (s1 : Sys σ),
      all.WellFormed → all.Traced W →
      queryLoop W apiKey qs all s = (.normal all1, s1) → all1.Traced W := by
  induction qs with
  | nil =>
    intro all s all1 s1 _ ht hrun
    simp only [queryLoop, Prod.mk.injEq, Completion.normal.injEq] at hrun
    exact hrun.1 ▸ ht
  | cons q rest ih =>
    intro all s all1 s1 hwf ht hrun
    have hres : ∀ res ∈ (searchSerpApiEnhanced W q apiKey s).1, ∃ env q k data,
        (W.serp env q k).1 = .response data ∧ res ∈ normalizeSerp data := by
      intro res hm
      obtain ⟨data, hd, hmem⟩ := mem_searchSerpApiEnhanced W q apiKey s res hm
      exact ⟨s.env, q, apiKey, data, hd, hmem⟩
    have hwf1 := snippetLoop_wellFormed (searchSerpApiEnhanced W q apiKey s).1 all hwf
    have ht1 := snippetLoop_traced W (searchSerpApiEnhanced W q apiKey s).1 all hres hwf ht
    rw [queryLoop] at hrun
    split at hrun
    · simp only [Prod.mk.injEq, Completion.normal.injEq] at hrun
      exact hrun.1 ▸ ht1
    · split at hrun
      · cases hrun
      · rename_i all2 s2 hsc
        have hwf2 := scrapeLoop_wellFormed W _ _ _ _ _ hwf1 hsc
        have ht2 := scrapeLoop_traced W _ _ _ _ _
          (fun x hx => hres x (List.mem_of_mem_take hx)) hwf1 ht1 hsc
        split at hrun
        · simp only [Prod.mk.injEq, Completion.normal.injEq] at hrun
          exact hrun.1 ▸ ht2
        · exact ih _ _ _ _ hwf2 ht2 hrun

/-- C18, as stated, fails: the snippet of the only result yields an email, so
an email was found, but the `url` recorded as its source is no string,
`calculateConfidence` throws on it, and the record comes back with source `""`. -/
theorem C18_counterexample :
    (queryLoop badSourceWorld []
        (queries janeRecord.firstName janeRecord.lastName janeRecord.company)
        noContacts start).1
      = .normal { emails := ["jane.doe@acmelending.com".toList], phones := [],
                  sources := [.other] } ∧
    (processRealtor badSourceWorld janeRecord [] start).1.source = [] ∧
    (processRealtor badSourceWorld janeRecord [] start).1.confidence = 0 := by
  decide

/-- C18, amended: when `processRealtor` completes without an exception, the
returned source is non-empty exactly when an email or a phone was found, and a
non-empty source is the `url` (or the sentinel `search_snippet`) of a result
from whose snippet or page the first email found or the first phone found was
read; a non-empty source is returned only by a run without an exception; and the
returned confidence is never 10. -/
theorem C18_source_of_first_contact {σ : Type} (W : World σ) (r : RealtorData)
    (apiKey : Str) (s : Sys σ) :
    (∀ all s1 res,
      queryLoop W apiKey (queries r.firstName r.lastName r.company) noContacts s
        = (.normal all, s1) →
      assemble r all = .normal res →
      (processRealtor W r apiKey s).1 = res ∧
      (res.source ≠ [] ↔ (all.emails ≠ [] ∨ all.phones ≠ [])) ∧
      (res.source ≠ [] → ∃ ci, Origin W (.str res.source) ci ∧
        ((∃ e, ci.emails.head? = some e ∧ all.emails.head? = some e) ∨
         (∃ p, ci.phones.head? = some p ∧ all.phones.head? = some p)))) ∧
    ((processRealtor W r apiKey s).1.source ≠ [] →
      ∃ all s1 res,
        queryLoop W apiKey (queries r.firstName r.lastName r.company) noContacts s
          = (.normal all, s1) ∧ assemble r all = .normal res) ∧
    (processRealtor W r apiKey s).1.confidence ≠ 10 := by
  -- what a normal completion gives
  have hnormal : ∀ all s1 res,
      queryLoop W apiKey (queries r.firstName r.lastName r.company) noContacts s
        = (.normal all, s1) →
      assemble r all = .normal res →
      (res.source ≠ [] ↔ (all.emails ≠ [] ∨ all.phones ≠ [])) ∧
      (res.source ≠ [] → all.sources.head? = some (.str res.source)) ∧
      res.confidence ≠ 10 := by
    intro all s1 res hrun hasm
    have hwf := queryLoop_wellFormed W apiKey _ _ _ _ _ wellFormed_noContacts hrun
    obtain ⟨hsrc, _, _, hconf⟩ := assemble_normal r all res hasm
    have hhead : all.sources ≠ [] → all.sources.head? = some (.str res.source) := by
      intro hne
      cases hs : all.sources with
      | nil => exact absurd hs hne
      | cons a as =>
        have ha : a.truthy = true := hwf.2.2.1 a (by rw [hs]; exact List.mem_cons_self _ _)
        rw [hs] at hsrc
        simp only [List.headD_cons, UrlVal.orDefault, ha, if_true] at hsrc
        rw [hsrc]; rfl
    have hiff : res.source ≠ [] ↔ all.sources ≠ [] := by
      constructor
      · intro hne hnil
        rw [hnil] at hsrc
        have : UrlVal.str [] = UrlVal.str res.source := hsrc
        simp only [UrlVal.str.injEq] at this
        exact hne this.symm
      · intro hne hnil
        have hh := hhead hne
        cases hs : all.sources with
        | nil => exact hne hs
        | cons a as =>
          rw [hs] at hh
          simp only [List.head?_cons, Option.some.injEq] at hh
          have ha : a.truthy = true := hwf.2.2.1 a (by rw [hs]; exact List.mem_cons_self _ _)
          rw [hh, hnil] at ha
          cases ha
    have hfound : all.sources ≠ [] ↔ (all.emails ≠ [] ∨ all.phones ≠ []) := by
      rw [ne_eq, hwf.2.2.2]
      tauto
    refine ⟨hiff.trans hfound, fun h => hhead (hiff.mp h), ?_⟩
    rw [hconf, calculateConfidence_eq]
    by_cases he : all.emails.headD [] ≠ []
    · rw [if_pos he]
      split_ifs <;> decide
    · by_cases hp : all.phones.headD [] ≠ []
      · rw [if_pos hp]
        split_ifs <;> decide
      · have he' : all.emails = [] := (WellFormed_headD_email hwf).mp (not_not.mp he)
        have hp' : all.phones = [] := (WellFormed_headD_phone hwf).mp (not_not.mp hp)
        have hs : res.source = [] := by
          by_contra hne
          rcases (hiff.trans hfound).mp hne with h | h
          · exact h he'
          · exact h hp'
        rw [if_neg he, if_neg hp, hs]
        have hnt : ¬ ("linkedin".toList <:+: ([] : Str) ∨ "realtor.com".toList <:+: ([] : Str) ∨
            "zillow".toList <:+: ([] : Str)) := by
          rw [← trusted_iff]; decide
        rw [if_neg hnt]
        decide
  refine ⟨?_, ?_, ?_⟩
  · intro all s1 res hrun hasm
    have hwf := queryLoop_wellFormed W apiKey _ _ _ _ _ wellFormed_noContacts hrun
    have htr := queryLoop_traced W apiKey _ _ _ _ _ wellFormed_noContacts
      (traced_noContacts W) hrun
    obtain ⟨h1, h2, _⟩ := hnormal all s1 res hrun hasm
    refine ⟨by rw [processRealtor_of_normal W r apiKey s s1 all hrun, hasm], h1, ?_⟩
    intro hne
    have hh := h2 hne
    rcases htr with hnil | ⟨src, ci, ho, hhd, ⟨es, he⟩, ⟨ps, hp⟩, hci⟩
    · rw [hnil] at hh; cases hh
    · rw [hhd] at hh
      simp only [Option.some.injEq] at hh
      subst hh
      refine ⟨ci, ho, ?_⟩
      rcases hci with hci | hci
      · left
        cases hE : ci.emails with
        | nil => exact absurd hE hci
        | cons e rest => exact ⟨e, rfl, by rw [he, hE]; rfl⟩
      · right
        cases hP : ci.phones with
        | nil => exact absurd hP hci
        | cons p rest => exact ⟨p, rfl, by rw [hp, hP]; rfl⟩
  · intro hne
    rcases hrun : queryLoop W apiKey (queries r.firstName r.lastName r.company)
      noContacts s with ⟨c, s1⟩
    cases c with
    | thrown =>
      rw [processRealtor_of_thrown W r apiKey s s1 hrun] at hne
      exact absurd rfl hne
    | normal all =>
      rw [processRealtor_of_normal W r apiKey s s1 all hrun] at hne
      cases hasm : assemble r all with
      | thrown =>
        rw [hasm] at hne
        exact absurd rfl hne
      | normal res => exact ⟨all, s1, res, rfl, hasm⟩
  · rcases hrun : queryLoop W apiKey (queries r.firstName r.lastName r.company)
      noContacts s with ⟨c, s1⟩
    cases c with
    | thrown =>
      rw [processRealtor_of_thrown W r apiKey s s1 hrun]
      exact fun h => by cases h
    | normal all =>
      rw [processRealtor_of_normal W r apiKey s s1 all hrun]
      cases hasm : assemble r all with
      | thrown => exact fun h => by cases h
      | normal res => exact (hnormal all s1 res hrun hasm).2.2

/-- C18, amended, at the record of Jane Doe with one organic result: the source
is the link of the result whose snippet yields the email. -/
theorem C18_witness :
    (processRealtor janeWorld janeRecord [] start).1.source
      = "https://acmelending.com/team".toList ∧
    (∃ ci, Origin janeWorld (.str "https://acmelending.com/team".toList) ci ∧
      ((∃ e, ci.emails.head? = some e ∧
          some "jane.doe@acmelending.com".toList = some e) ∨
       (∃ p, ci.phones.head? = some p ∧ (none : Option Str) = some p))) ∧
    (processRealtor janeWorld janeRecord [] start).1.confidence ≠ 10 :=
  have h := C18_source_of_first_contact janeWorld janeRecord [] start
  ⟨rfl,
   (h.1 { emails := ["jane.doe@acmelending.com".toList], phones := [],
          sources := [.str "https://acmelending.com/team".toList] }
      (queryLoop janeWorld [] (queries janeRecord.firstName janeRecord.lastName
        janeRecord.company) noContacts start).2
      (processRealtor janeWorld janeRecord [] start).1 rfl rfl).2.2 (by decide),
   h.2.2⟩

end Scraper
